import Mathlib

/-
Verification development for the SigV4 HTTP-authorization library
(sources: source/sigv4.c and the quicksort unit).  The C code is shallowly
embedded: bytes are natural numbers below 256 (the target has unsigned
`char`), `size_t` is a natural number with explicit wrap-around where the C
arithmetic can overflow, buffers are byte lists, and each C function becomes
an executable Lean function of the same name.  The streaming hash primitive
of the crypto interface is external to the repository; it is modelled as a
total digest function (per-call failures of the hash backend are not
modelled; none of the statements below depends on them).
-/

namespace SigV4

/-- Status codes of the library (sigv4.h enumeration, as listed in the
specification's closed error enumeration). -/
inductive SigV4Status where
  | Success
  | InvalidParameter
  | InsufficientMemory
  | ISOFormattingError
  | MaxQueryPairCountExceeded
  | MaxHeaderPairCountExceeded
  | HashError
  deriving DecidableEq, Repr

open SigV4Status

/-- Bytes of an ASCII character list; used to write byte-string literals. -/
def chs (l : List Char) : List Nat :=
  l.map Char.toNat

/-- Largest value of the C type `size_t` (the target is 64-bit). -/
def SIZE_MAX : Nat := 2 ^ 64 - 1

/-- Wrapping 64-bit subtraction, for the places where the C code subtracts
from a `size_t` that may be smaller than the subtrahend. -/
def sub64 (a b : Nat) : Nat :=
  (a + 2 ^ 64 - b % 2 ^ 64) % 2 ^ 64

/-- Linefeed byte (LINEFEED_CHAR). -/
def LINEFEED_CHAR : Nat := 10

/-- C `isalnum` on an unsigned char, C locale (ASCII digits and letters). -/
def isalnum (b : Nat) : Bool :=
  (48 ≤ b && b ≤ 57) || (65 ≤ b && b ≤ 90) || (97 ≤ b && b ≤ 122)

/-- toUpperHexChar from sigv4.c: upper-case hex digit of a nibble. -/
def toUpperHexChar (value : Nat) : Nat :=
  if value < 10 then 48 + value else 65 + value - 10

/-- Unreserved-byte test of encodeURI's copy-verbatim branch:
`isalnum(b) || b ∈ {'-','_','.','~'} || (b == '/' && !encodeSlash)`. -/
def encodeURICopiesVerbatim (encodeSlash : Bool) (b : Nat) : Bool :=
  isalnum b || b == 45 || b == 95 || b == 46 || b == 126 ||
    (b == 47 && !encodeSlash)

/-- Result of encodeURI: status, the bytes stored to the destination, and
the final `bytesConsumed` value (returned through `canonicalURILen`). -/
structure EncodeRes where
  status : SigV4Status
  out : List Nat
  written : Nat
  deriving DecidableEq, Repr

/-- Loop of encodeURI (sigv4.c lines 824-884).  `cap` is the incoming
`*canonicalURILen`; `bc` is `bytesConsumed`.  The loop condition
`i++ < uriLen && *pUriLoc` stops at the end of the input or at a 0x00 byte;
an error status set in one iteration breaks out at the top of the next, so
the recursion stops when a branch reports `InsufficientMemory`. -/
def encodeURIGo (cap : Nat) (encodeSlash doubleEncodeEquals : Bool) :
    List Nat → Nat → EncodeRes
  | [], bc => ⟨Success, [], bc⟩
  | b :: rest, bc =>
    if b = 0 then
      ⟨Success, [], bc⟩
    else if doubleEncodeEquals && b == 61 then
      if bc > SIZE_MAX - 5 ∨ bc + 5 > cap then
        ⟨InsufficientMemory, [], bc⟩
      else
        let r := encodeURIGo cap encodeSlash doubleEncodeEquals rest (bc + 5)
        ⟨r.status, 37 :: 50 :: 53 :: 51 :: 68 :: r.out, r.written⟩
    else if encodeURICopiesVerbatim encodeSlash b then
      -- this branch stores the byte before any capacity check; the
      -- trailing `bytesConsumed > *canonicalURILen` test then stops the loop
      if bc + 1 > cap then
        ⟨InsufficientMemory, [b], bc + 1⟩
      else
        let r := encodeURIGo cap encodeSlash doubleEncodeEquals rest (bc + 1)
        ⟨r.status, b :: r.out, r.written⟩
    else
      if bc > SIZE_MAX - 3 ∨ bc + 3 > cap then
        ⟨InsufficientMemory, [], bc⟩
      else
        let r := encodeURIGo cap encodeSlash doubleEncodeEquals rest (bc + 3)
        ⟨r.status, 37 :: toUpperHexChar (b / 16) :: toUpperHexChar (b % 16) :: r.out,
          r.written⟩

/-- encodeURI (sigv4.c lines 804-889).  `cap` is the value of
`*canonicalURILen` on entry. -/
def encodeURI (pUri : List Nat) (cap : Nat)
    (encodeSlash doubleEncodeEquals : Bool) : EncodeRes :=
  encodeURIGo cap encodeSlash doubleEncodeEquals pUri 0

/-- Date representation SigV4DateTime_t.  All fields are written by
`addToDate` from non-negative parsed values, so natural numbers suffice. -/
structure SigV4DateTime where
  tm_year : Nat := 0
  tm_mon : Nat := 0
  tm_mday : Nat := 0
  tm_hour : Nat := 0
  tm_min : Nat := 0
  tm_sec : Nat := 0
  deriving DecidableEq, Repr

/-- YEAR_MIN of the date validator (specification section 4.2: year at
least 1900; constant lives in the internal header). -/
def YEAR_MIN : Nat := 1900

/-- MONTH_DAYS table: days per month, leap day handled separately
(specification section 4.2, "day within month"). -/
def MONTH_DAYS : List Nat := [31, 28, 31, 30, 31, 30, 31, 31, 30, 31, 30, 31]

/-- MONTH_NAMES table for the RFC 5322 month scan (specification
section 4.2: case-sensitive scan against Jan..Dec). -/
def MONTH_NAMES : List (List Nat) :=
  [chs ['J', 'a', 'n'], chs ['F', 'e', 'b'], chs ['M', 'a', 'r'],
   chs ['A', 'p', 'r'], chs ['M', 'a', 'y'], chs ['J', 'u', 'n'],
   chs ['J', 'u', 'l'], chs ['A', 'u', 'g'], chs ['S', 'e', 'p'],
   chs ['O', 'c', 't'], chs ['N', 'o', 'v'], chs ['D', 'e', 'c']]

/-- checkLeap (sigv4.c lines 278-301): a 29 February is accepted exactly
when the year is a leap year; every other date yields the error status. -/
def checkLeap (d : SigV4DateTime) : SigV4Status :=
  if d.tm_mon = 2 ∧ d.tm_mday = 29 then
    if d.tm_year % 400 ≠ 0 ∧ (d.tm_year % 4 ≠ 0 ∨ d.tm_year % 100 = 0) then
      ISOFormattingError
    else
      Success
  else
    ISOFormattingError

/-- validateDateTime (sigv4.c lines 305-376), with the sequential updates
of `returnStatus` made explicit. -/
def validateDateTime (d : SigV4DateTime) : SigV4Status :=
  let st1 := if d.tm_year < YEAR_MIN then ISOFormattingError else Success
  let st2 := if d.tm_mon < 1 ∨ d.tm_mon > 12 then ISOFormattingError else st1
  let st3 :=
    if st2 ≠ ISOFormattingError ∧
        (d.tm_mday < 1 ∨ d.tm_mday > MONTH_DAYS.getD (d.tm_mon - 1) 0) then
      checkLeap d
    else
      st2
  let st4 := if d.tm_hour > 23 then ISOFormattingError else st3
  let st5 := if d.tm_min > 59 then ISOFormattingError else st4
  if d.tm_sec > 60 then ISOFormattingError else st5

/-- addToDate (sigv4.c lines 380-419). -/
def addToDate (formatChar : Char) (result : Nat) (d : SigV4DateTime) :
    SigV4DateTime :=
  match formatChar with
  | 'Y' => { d with tm_year := result }
  | 'M' => { d with tm_mon := result }
  | 'D' => { d with tm_mday := result }
  | 'h' => { d with tm_hour := result }
  | 'm' => { d with tm_min := result }
  | 's' => { d with tm_sec := result }
  | _ => d

/-- Month-name scan of scanValue: 1-based index of the first month name
equal to the three given bytes (the C loop leaves `result` at the matched
index and breaks). -/
def monthMatch (bytes3 : List Nat) : Option Nat :=
  match MONTH_NAMES.findIdx? (fun nm => nm = bytes3) with
  | some k => some (k + 1)
  | none => none

/-- Digit loop of scanValue: consume up to `remaining` decimal digits from
the byte list, returning the accumulated value and the number of digits
still owed (nonzero exactly when a non-digit cut the scan short). -/
def scanDigits : Nat → List Nat → Nat → Nat × Nat
  | 0, _, acc => (acc, 0)
  | n + 1, [], acc => (acc, n + 1)
  | n + 1, b :: rest, acc =>
    if 48 ≤ b ∧ b ≤ 57 then
      scanDigits n rest (acc * 10 + (b - 48))
    else
      (acc, n + 1)

/-- scanValue (sigv4.c lines 423-493).  Note the faithful quirk that a
successful numeric scan leaves the status at `InvalidParameter`; parseDate
treats anything other than `ISOFormattingError` as progress. -/
def scanValue (pDate : List Nat) (formatChar : Char) (readLoc lenToRead : Nat)
    (d : SigV4DateTime) : SigV4Status × SigV4DateTime :=
  let remaining0 := if formatChar = '*' then 0 else lenToRead
  if formatChar = 'M' ∧ remaining0 = 3 then
    match monthMatch ((pDate.drop readLoc).take 3) with
    | some k => (Success, addToDate 'M' k d)
    | none => (ISOFormattingError, d)
  else
    let s := scanDigits remaining0 (pDate.drop readLoc) 0
    if s.2 ≠ 0 then
      (ISOFormattingError, d)
    else
      (InvalidParameter, addToDate formatChar s.1 d)

/-- Loop of parseDate (sigv4.c lines 512-549): walk the format string,
dispatching `%NC` specifiers to scanValue and matching every other format
character literally; the loop stops at the first `ISOFormattingError`. -/
def parseDateGo (pDate : List Nat) :
    List Char → Nat → SigV4Status → SigV4DateTime → SigV4Status × SigV4DateTime
  | [], _, st, d => (st, d)
  | '%' :: lenC :: typeC :: rest, readLoc, _, d =>
    let lenToRead := lenC.toNat - 48
    let s := scanValue pDate typeC readLoc lenToRead d
    if s.1 = ISOFormattingError then
      s
    else
      parseDateGo pDate rest (readLoc + lenToRead) s.1 s.2
  | '%' :: rest, _, st, d =>
    -- a bare `%` at the end of the format is asserted against in the C
    -- code and never occurs in the two format strings
    let _ := rest
    (st, d)
  | c :: rest, readLoc, st, d =>
    if pDate.getD readLoc 0 ≠ c.toNat then
      (ISOFormattingError, d)
    else
      parseDateGo pDate rest (readLoc + 1) st d

/-- parseDate (sigv4.c lines 497-562). -/
def parseDate (pDate : List Nat) (fmt : List Char) :
    SigV4Status × SigV4DateTime :=
  let s := parseDateGo pDate fmt 0 InvalidParameter {}
  if s.1 ≠ ISOFormattingError then (Success, s.2) else (ISOFormattingError, s.2)

/-- FORMAT_RFC_3339 for 20-byte inputs YYYY-MM-DDTHH:MM:SSZ (specification
section 4.2; the constant lives in the internal header). -/
def FORMAT_RFC_3339 : List Char :=
  ['%', '4', 'Y', '-', '%', '2', 'M', '-', '%', '2', 'D', 'T',
   '%', '2', 'h', ':', '%', '2', 'm', ':', '%', '2', 's', 'Z']

/-- FORMAT_RFC_5322 for 29-byte inputs `Day, DD Mon YYYY HH:MM:SS GMT`
(specification section 4.2; the constant lives in the internal header). -/
def FORMAT_RFC_5322 : List Char :=
  ['%', '3', '*', ',', ' ', '%', '2', 'D', ' ', '%', '3', 'M', ' ',
   '%', '4', 'Y', ' ', '%', '2', 'h', ':', '%', '2', 'm', ':', '%', '2', 's',
   ' ', 'G', 'M', 'T']

/-- intToAscii (sigv4.c lines 253-274): base-10 digits of `value`,
right-aligned in a width-`bufferLen` field, left-padded with zeros (the C
loop writes `value % 10` at descending positions while dividing by 10). -/
def intToAscii (value width : Nat) : List Nat :=
  (List.range width).map (fun k => 48 + value / 10 ^ (width - 1 - k) % 10)

/-- SigV4_AwsIotDateToIso8601 (sigv4.c lines 1763-1837).  The NULL-pointer
checks of the C code guard inputs that this embedding cannot represent;
the length checks and the parse/validate/emit chain are modelled exactly.
Returns the status and the 16 bytes written on success. -/
def SigV4_AwsIotDateToIso8601 (pDate : List Nat) (dateISO8601Len : Nat) :
    SigV4Status × List Nat :=
  if pDate.length ≠ 20 ∧ pDate.length ≠ 29 then
    (InvalidParameter, [])
  else if dateISO8601Len < 16 then
    (InvalidParameter, [])
  else
    let fmt := if pDate.length = 20 then FORMAT_RFC_3339 else FORMAT_RFC_5322
    let s := parseDate pDate fmt
    if s.1 ≠ Success then
      (s.1, [])
    else
      let st2 := validateDateTime s.2
      if st2 ≠ Success then
        (st2, [])
      else
        (Success,
          intToAscii s.2.tm_year 4 ++ intToAscii s.2.tm_mon 2 ++
          intToAscii s.2.tm_mday 2 ++ [84] ++ intToAscii s.2.tm_hour 2 ++
          intToAscii s.2.tm_min 2 ++ intToAscii s.2.tm_sec 2 ++ [90])

/-- Size of the processing buffer SIGV4_PROCESSING_BUFFER_LENGTH
(specification section 4.9: configurable, commonly 4096). -/
def SIGV4_PROCESSING_BUFFER_LENGTH : Nat := 4096

/-- SIGV4_MAX_QUERY_PAIR_COUNT (specification section 6: cap with a
dedicated error code; default of the library configuration). -/
def SIGV4_MAX_QUERY_PAIR_COUNT : Nat := 100

/-- SIGV4_MAX_HTTP_HEADER_COUNT (specification section 6: cap with a
dedicated error code; default of the library configuration). -/
def SIGV4_MAX_HTTP_HEADER_COUNT : Nat := 100

/-- CanonicalContext_t, reduced to its observable content: `out` is the
byte range `[pBufProcessing, pBufCur)` already written, and `bufRemaining`
is the field of the same name.  Scratch bytes beyond the cursor are not
tracked. -/
structure CanonicalContext where
  out : List Nat
  bufRemaining : Nat
  deriving DecidableEq, Repr

/-- writeLineToCanonicalRequest (sigv4.c lines 1509-1537). -/
def writeLineToCanonicalRequest (pLine : List Nat) (ctx : CanonicalContext) :
    Except SigV4Status CanonicalContext :=
  if ctx.bufRemaining < pLine.length + 1 then
    .error InsufficientMemory
  else
    .ok ⟨ctx.out ++ pLine ++ [LINEFEED_CHAR], ctx.bufRemaining - (pLine.length + 1)⟩

/-- C `strncmp` on unsigned-char data: compare at most `n` bytes, stopping
at the first difference or at a 0x00 byte that both strings share.  The
callers in sigv4.c always pass `n` at most the length of both operands, so
the exhausted-list cases are unreachable there. -/
def strncmp : List Nat → List Nat → Nat → Int
  | _, _, 0 => 0
  | [], _, _ + 1 => 0
  | _ :: _, [], _ + 1 => 0
  | a :: as, b :: bs, n + 1 =>
    if a ≠ b then (a : Int) - (b : Int)
    else if a = 0 then 0
    else strncmp as bs n

/-- SigV4KeyValuePair_t: a query (or header) record.  `value = none`
models the NULL value slice stored for a parameter without `=`. -/
structure SigV4KeyValuePair where
  key : List Nat
  value : Option (List Nat)
  deriving DecidableEq, Repr

/-- Bytes of the value slice; the NULL slice has length 0, so it reads as
the empty byte string. -/
def valueBytes (p : SigV4KeyValuePair) : List Nat :=
  p.value.getD []

/-- cmpQueryFieldValue (sigv4.c lines 737-782). -/
def cmpQueryFieldValue (pFirst pSecond : SigV4KeyValuePair) : Int :=
  let lenSmallK := min pFirst.key.length pSecond.key.length
  let comp0 := strncmp pFirst.key pSecond.key lenSmallK
  let comp1 :=
    if comp0 = 0 then
      if pFirst.key.length = pSecond.key.length then
        strncmp (valueBytes pFirst) (valueBytes pSecond)
          (min (valueBytes pFirst).length (valueBytes pSecond).length)
      else if pFirst.key.length < pSecond.key.length then -1 else 1
    else
      comp0
  if comp1 = 0 ∧ (valueBytes pFirst).length ≠ (valueBytes pSecond).length then
    if (valueBytes pFirst).length < (valueBytes pSecond).length then -1 else 1
  else
    comp1

/-- Byte comparison over exactly `n` positions as the specification words
it ("unsigned byte order over min(|a|,|b|) bytes"): no 0x00 byte stops the
comparison. -/
def byteCmpN : List Nat → List Nat → Nat → Int
  | _, _, 0 => 0
  | [], _, _ + 1 => 0
  | _ :: _, [], _ + 1 => 0
  | a :: as, b :: bs, n + 1 =>
    if a ≠ b then (a : Int) - (b : Int) else byteCmpN as bs n

/-- Field comparison as the specification words it (section 4.5 phase 2):
unsigned byte order over the first `min` bytes, then shorter-first. -/
def specFieldCmp (a b : List Nat) : Int :=
  let c := byteCmpN a b (min a.length b.length)
  if c ≠ 0 then c
  else if a.length = b.length then 0
  else if a.length < b.length then -1 else 1

/-- Record comparator as the specification words it: keys first,
then values likewise. -/
def cmpQueryFieldValueSpec (pFirst pSecond : SigV4KeyValuePair) : Int :=
  let ck := specFieldCmp pFirst.key pSecond.key
  if ck ≠ 0 then ck else specFieldCmp (valueBytes pFirst) (valueBytes pSecond)

/-- Byte slice `q[start, stop)`, the contents of a SigV4String_t pointing
at `&q[start]` with length `stop - start`. -/
def sliceBytes (q : List Nat) (start stop : Nat) : List Nat :=
  (q.take stop).drop start

/-- Loop of setQueryStringFieldsAndValues (sigv4.c lines 966-1017),
recursing on the unprocessed suffix of the query: in every call
`remaining = q.drop i` and the head of `remaining` is `pQuery[i]`.  `pend`
is the key slice stored in the open record slot while `fieldHasValue` is
set.  At the last input index the C code first bumps `i` to `queryLen`,
so that iteration is always the final one and is written without a
recursive call; in the other branches the iteration continues at `i + 1`
unless the record count has passed the pair cap (the C `break`; the count
check of iterations that did not add a record is omitted, which agrees
with the C code for every call that starts below the cap). -/
def setQSLoop (q : List Nat) :
    List Nat → Nat → Nat → Bool → List Nat → List SigV4KeyValuePair →
    List SigV4KeyValuePair
  | [], _, _, _, _, recs => recs
  | b :: rem, i, start, fHV, pend, recs =>
    if b = 61 ∧ fHV = false then
      setQSLoop q rem (i + 1) (i + 1) true (sliceBytes q start i) recs
    else if i = q.length - 1 ∨ (b = 38 ∧ i ≠ 0) then
      if i = q.length - 1 then
        -- adjusted index i2 = i + 1 = queryLen; the loop exits after this
        -- iteration whether or not the cap check breaks
        if i + 1 - start = 0 then recs
        else if fHV = false then
          recs ++ [⟨sliceBytes q start (i + 1), none⟩]
        else
          recs ++ [⟨pend, some (sliceBytes q start (i + 1))⟩]
      else
        if i - start = 0 then
          -- "A field should never be empty" branch: the C code does
          -- nothing here, in particular it does not move `start`
          setQSLoop q rem (i + 1) start fHV pend recs
        else if fHV = false then
          let recs2 := recs ++ [⟨sliceBytes q start i, none⟩]
          if recs2.length > SIGV4_MAX_QUERY_PAIR_COUNT then recs2
          else setQSLoop q rem (i + 1) (i + 1) fHV pend recs2
        else
          let recs2 := recs ++ [⟨pend, some (sliceBytes q start i)⟩]
          if recs2.length > SIGV4_MAX_QUERY_PAIR_COUNT then recs2
          else setQSLoop q rem (i + 1) (i + 1) false pend recs2
    else
      setQSLoop q rem (i + 1) start fHV pend recs

/-- setQueryStringFieldsAndValues (sigv4.c lines 957-1020): the list of
records produced, in input order; `*pNumberOfParameters` is its length. -/
def setQueryStringFieldsAndValues (q : List Nat) : List SigV4KeyValuePair :=
  setQSLoop q q 0 0 false [] []

/-- Insertion step of the sort model. -/
def qsortInsert (le : SigV4KeyValuePair → SigV4KeyValuePair → Bool)
    (x : SigV4KeyValuePair) : List SigV4KeyValuePair → List SigV4KeyValuePair
  | [] => [x]
  | y :: ys => if le x y then x :: y :: ys else y :: qsortInsert le x ys

/-- Modelled from the spec: the libc `qsort` call of generateCanonicalQuery
is external library code; section 4.3 specifies only that the records are
permuted into comparator order, so the model uses an insertion sort driven
by the caller's comparator. -/
def qsortModel (le : SigV4KeyValuePair → SigV4KeyValuePair → Bool) :
    List SigV4KeyValuePair → List SigV4KeyValuePair
  | [] => []
  | x :: xs => qsortInsert le x (qsortModel le xs)

/-- Boolean form of the comparator handed to the sort. -/
def cmpQueryFieldValueLe (a b : SigV4KeyValuePair) : Bool :=
  cmpQueryFieldValue a b ≤ 0

/-- Key/value phase of one writeCanonicalQueryParameters iteration
(sigv4.c lines 1038-1083): encode the key, then — when a non-empty value
is present — the `=` and the double-encode-equals encoding of the value.
Returns the status, the buffer contents and the remaining length. -/
def writeCQPKeyValue (ctx : CanonicalContext) (p : SigV4KeyValuePair) :
    SigV4Status × List Nat × Nat :=
  let r1 := encodeURI p.key ctx.bufRemaining true false
  if r1.status = Success then
    let out1 := ctx.out ++ r1.out
    let rem1 := ctx.bufRemaining - r1.written
    match p.value with
    | some v =>
      if v.length > 0 then
        if rem1 < 1 then
          (InsufficientMemory, out1, rem1)
        else
          let r2 := encodeURI v (rem1 - 1) true true
          if r2.status = Success then
            (Success, out1 ++ 61 :: r2.out, rem1 - 1 - r2.written)
          else
            (r2.status, out1 ++ [61], rem1 - 1)
      else
        (Success, out1, rem1)
    | none => (Success, out1, rem1)
  else
    (r1.status, ctx.out, ctx.bufRemaining)

/-- writeCanonicalQueryParameters (sigv4.c lines 1022-1112).  The list
argument carries the records still to be written; `rest.isEmpty` is the
`numberOfParameters == i + 1` test.  The context commits at the foot of
each successful iteration, and the loop breaks on the first error. -/
def writeCanonicalQueryParameters (ctx : CanonicalContext) :
    List SigV4KeyValuePair → Except SigV4Status CanonicalContext
  | [] => .ok ctx
  | p :: rest =>
    let a := writeCQPKeyValue ctx p
    if a.2.2 < 1 ∧ ¬ rest.isEmpty then
      .error InsufficientMemory
    else if ¬ rest.isEmpty ∧ a.1 = Success then
      writeCanonicalQueryParameters ⟨a.2.1 ++ [38], a.2.2 - 1⟩ rest
    else if a.1 ≠ Success then
      .error a.1
    else
      writeCanonicalQueryParameters ⟨a.2.1, a.2.2⟩ rest

/-- generateCanonicalQuery (sigv4.c lines 1114-1160).  The final linefeed
append is not bounds-checked in the source, so the remaining count uses the
wrapping decrement. -/
def generateCanonicalQuery (pQuery : List Nat) (ctx : CanonicalContext) :
    Except SigV4Status CanonicalContext :=
  let recs := setQueryStringFieldsAndValues pQuery
  if recs.length > SIGV4_MAX_QUERY_PAIR_COUNT then
    .error MaxQueryPairCountExceeded
  else
    match writeCanonicalQueryParameters ctx (qsortModel cmpQueryFieldValueLe recs) with
    | .error e => .error e
    | .ok ctx2 => .ok ⟨ctx2.out ++ [LINEFEED_CHAR], sub64 ctx2.bufRemaining 1⟩

/-- SigV4CryptoInterface_t, reduced to its computational content: the
streaming hash backend is modelled as a total digest function over the
accumulated update bytes (specification section 1 treats the hash as an
external collaborator), plus the two length parameters. -/
structure SigV4CryptoInterface where
  hash : List Nat → List Nat
  hashBlockLen : Nat
  hashDigestLen : Nat

/-- Lower-case hex digit of a nibble (the `digitArr` table of
lowercaseHexEncode). -/
def lowercaseHexDigit (n : Nat) : Nat :=
  if n < 10 then 48 + n else 97 + n - 10

/-- Byte expansion of lowercaseHexEncode's loop (sigv4.c lines 589-595):
high nibble then low nibble, lower-case. -/
def lowercaseHexBytes (l : List Nat) : List Nat :=
  l.flatMap (fun b => [lowercaseHexDigit (b % 256 / 16), lowercaseHexDigit (b % 16)])

/-- lowercaseHexEncode (sigv4.c lines 567-601): fails when the output
capacity is below twice the input length, else yields the hex bytes. -/
def lowercaseHexEncode (input : List Nat) (capLen : Nat) :
    Except SigV4Status (List Nat) :=
  if capLen < input.length * 2 then
    .error InsufficientMemory
  else
    .ok (lowercaseHexBytes input)

/-- completeHashAndHexEncode (sigv4.c lines 1279-1322): one-shot hash of
the input, then lower-case hex encoding of the `hashDigestLen` digest
bytes into a destination of capacity `cap`; `*pOutputLen` becomes
`2 * hashDigestLen` on success. -/
def completeHashAndHexEncode (c : SigV4CryptoInterface) (input : List Nat)
    (cap : Nat) : Except SigV4Status (List Nat) :=
  if cap < c.hashDigestLen * 2 then
    .error InsufficientMemory
  else
    .ok (lowercaseHexBytes ((c.hash input).take c.hashDigestLen))

/-- HmacContext_t: `key` holds the meaningful bytes of the key buffer,
`keyLen` the accumulated key length (which may exceed the block length
while the key is being hashed down), and `acc` the bytes fed to the
streaming hash context since the last init. -/
structure HmacContext where
  key : List Nat
  keyLen : Nat
  acc : List Nat
  deriving DecidableEq, Repr

/-- hmacKey (sigv4.c lines 1324-1372): append the chunk to the key buffer
while the total fits in a block; once it exceeds the block, stream the
buffered key (first overflow only) and then the chunk into the hash. -/
def hmacKey (c : SigV4CryptoInterface) (ctx : HmacContext) (pKey : List Nat) :
    HmacContext :=
  if ctx.keyLen + pKey.length ≤ c.hashBlockLen then
    { ctx with key := ctx.key.take ctx.keyLen ++ pKey,
               keyLen := ctx.keyLen + pKey.length }
  else if ctx.keyLen ≤ c.hashBlockLen then
    { ctx with acc := ctx.key.take ctx.keyLen ++ pKey,
               keyLen := ctx.keyLen + pKey.length }
  else
    { ctx with acc := ctx.acc ++ pKey, keyLen := ctx.keyLen + pKey.length }

/-- hmacData (sigv4.c lines 1376-1437): finish hashing down a long key if
needed, zero-pad the key to the block length, XOR with the 0x36 inner pad,
and start the inner hash over the padded key followed by the data. -/
def hmacData (c : SigV4CryptoInterface) (ctx : HmacContext) (pData : List Nat) :
    HmacContext :=
  let ctx1 :=
    if ctx.keyLen > c.hashBlockLen then
      { ctx with key := (c.hash ctx.acc).take c.hashDigestLen,
                 keyLen := c.hashDigestLen }
    else
      ctx
  let padded := ctx1.key.take ctx1.keyLen ++
    List.replicate (c.hashBlockLen - ctx1.keyLen) 0
  let ipadded := padded.map (fun b => b ^^^ 54)
  { key := ipadded, keyLen := ctx1.keyLen, acc := ipadded ++ pData }

/-- hmacFinal (sigv4.c lines 1441-1507): finish the inner hash, XOR the
padded key with 0x36 xor 0x5c = 0x6a to obtain the outer-padded key, hash
the outer key followed by the inner digest, and reset the key length. -/
def hmacFinal (c : SigV4CryptoInterface) (ctx : HmacContext) :
    List Nat × HmacContext :=
  let innerHashDigest := (c.hash ctx.acc).take c.hashDigestLen
  let okey := ctx.key.map (fun b => b ^^^ 106)
  let mac := (c.hash (okey ++ innerHashDigest)).take c.hashDigestLen
  (mac, { key := okey, keyLen := 0, acc := okey ++ innerHashDigest })

/-- completeHmac (sigv4.c lines 1539-1573): `none` models the `-1` status
returned when the output buffer is smaller than a digest (the modelled
hash backend itself does not fail). -/
def completeHmac (c : SigV4CryptoInterface) (ctx : HmacContext)
    (pKey pData : List Nat) (outputLen : Nat) :
    Option (List Nat × HmacContext) :=
  if outputLen < c.hashDigestLen then
    none
  else
    some (hmacFinal c (hmacData c (hmacKey c ctx pKey) pData))

/-- The algorithm string AWS4-HMAC-SHA256 (SIGV4_AWS4_HMAC_SHA256). -/
def SIGV4_AWS4_HMAC_SHA256 : List Nat :=
  chs ['A', 'W', 'S', '4', '-', 'H', 'M', 'A', 'C', '-',
       'S', 'H', 'A', '2', '5', '6']

/-- The credential-scope terminator aws4_request
(CREDENTIAL_SCOPE_TERMINATOR). -/
def CREDENTIAL_SCOPE_TERMINATOR : List Nat :=
  chs ['a', 'w', 's', '4', '_', 'r', 'e', 'q', 'u', 'e', 's', 't']

/-- The AWS4 signing-key lead-in bytes (the macro named
SIGV4_HMAC_SIGNING_KEY_ followed by PREFIX in the source headers). -/
def SIGV4_HMAC_SIGNING_KEY_LEAD : List Nat :=
  chs ['A', 'W', 'S', '4']

/-- SigV4Credentials_t (the fields the signing path reads). -/
structure SigV4Credentials where
  accessKeyId : List Nat
  secretAccessKey : List Nat

/-- The four HTTP canonicalization flags of SigV4HttpParameters_t. -/
structure HttpFlags where
  pathCanonical : Bool
  queryCanonical : Bool
  headersCanonical : Bool
  payloadIsHash : Bool
  deriving DecidableEq, Repr

/-- SigV4HttpParameters_t.  An empty list stands for a NULL pointer or a
zero length; the top-level function folds the two cases together for the
path, and never dereferences the others beyond their length. -/
structure SigV4HttpParameters where
  httpMethod : List Nat
  path : List Nat
  query : List Nat
  headers : List Nat
  payload : List Nat
  flags : HttpFlags

/-- SigV4Parameters_t.  `algorithm = []` models the NULL/zero-length
algorithm that selects the AWS4-HMAC-SHA256 default. -/
structure SigV4Parameters where
  credentials : SigV4Credentials
  dateIso8601 : List Nat
  algorithm : List Nat
  region : List Nat
  service : List Nat
  crypto : SigV4CryptoInterface
  http : SigV4HttpParameters

/-- sizeNeededForCredentialScope (sigv4.c lines 605-612): date scope (8),
three separators, region, service, terminator (12) and the linefeed. -/
def sizeNeededForCredentialScope (p : SigV4Parameters) : Nat :=
  8 + 1 + p.region.length + 1 + p.service.length + 1 + 12 + 1

/-- generateCredentialScope (sigv4.c lines 614-675), written as the bytes
it stores: its only caller hands it a destination of exactly
`sizeNeededForCredentialScope` bytes, so the capacity branch never fires
there and the ignored status is omitted. -/
def generateCredentialScope (p : SigV4Parameters) : List Nat :=
  p.dateIso8601.take 8 ++ [47] ++ p.region ++ [47] ++ p.service ++ [47] ++
    CREDENTIAL_SCOPE_TERMINATOR ++ [LINEFEED_CHAR]

/-- generateCanonicalURI (sigv4.c lines 893-953): encode once into the
arena; when `encodeTwice` is set, encode the first output again (capacity
`bufRemaining - encodedLen`) and keep only the second output; append a
linefeed when at least one byte remains. -/
def generateCanonicalURI (pUri : List Nat) (encodeTwice : Bool)
    (ctx : CanonicalContext) : Except SigV4Status CanonicalContext :=
  let r1 := encodeURI pUri ctx.bufRemaining false false
  if r1.status ≠ Success then
    .error r1.status
  else if encodeTwice then
    let r2 := encodeURI r1.out (ctx.bufRemaining - r1.written) false false
    if r2.status ≠ Success then
      .error r2.status
    else if ctx.bufRemaining - r2.written < 1 then
      .error InsufficientMemory
    else
      .ok ⟨ctx.out ++ r2.out ++ [LINEFEED_CHAR],
        ctx.bufRemaining - r2.written - 1⟩
  else if ctx.bufRemaining - r1.written < 1 then
    .error InsufficientMemory
  else
    .ok ⟨ctx.out ++ r1.out ++ [LINEFEED_CHAR],
      ctx.bufRemaining - r1.written - 1⟩

/-- writeStringToSign (sigv4.c lines 1601-1671), composed with the inlined
writeStringToSignPrefix (lines 1575-1599) and generateCredentialScope: the
canonical request accumulated so far is hashed and hex-encoded, the
processing buffer is rebuilt as algorithm, linefeed, ISO date, linefeed,
credential scope (with its linefeed) and the hex digest, and the remaining
count is recomputed against the whole buffer length. -/
def writeStringToSign (p : SigV4Parameters) (ctx : CanonicalContext) :
    Except SigV4Status CanonicalContext :=
  let algo := if p.algorithm = [] then SIGV4_AWS4_HMAC_SHA256 else p.algorithm
  match completeHashAndHexEncode p.crypto ctx.out ctx.bufRemaining with
  | .error e => .error e
  | .ok hexHash =>
    let sizeNeededBeforeHash :=
      algo.length + 1 + 16 + 1 + sizeNeededForCredentialScope p
    if sizeNeededBeforeHash + p.crypto.hashDigestLen * 2 >
        SIGV4_PROCESSING_BUFFER_LENGTH then
      .error InsufficientMemory
    else
      .ok ⟨algo ++ [LINEFEED_CHAR] ++ p.dateIso8601.take 16 ++ [LINEFEED_CHAR] ++
            generateCredentialScope p ++ hexHash,
          SIGV4_PROCESSING_BUFFER_LENGTH - p.crypto.hashDigestLen * 2 -
            sizeNeededBeforeHash⟩

/-- generateSigningKey (sigv4.c lines 1673-1761).  `signingKeyDataLen` is
`pSigningKey->dataLen` and `remaining0` is `*pBytesRemaining` on entry;
the result carries the status, the final signing-key digest, and the final
`*pBytesRemaining`.  The line
`returnStatus == SigV4InsufficientMemory;` of the source (line 1696) is an
expression statement without an assignment, so the
`*pBytesRemaining < 2 * hashDigestLen` capacity check changes nothing and
has no counterpart here; the two decrements of `*pBytesRemaining` use the
wrapping subtraction because nothing stops them from underflowing. -/
def generateSigningKey (p : SigV4Parameters)
    (signingKeyDataLen remaining0 : Nat) : SigV4Status × List Nat × Nat :=
  let c := p.crypto
  let L := c.hashDigestLen
  let ctx1 := hmacKey c ⟨[], 0, []⟩ SIGV4_HMAC_SIGNING_KEY_LEAD
  match completeHmac c ctx1 p.credentials.secretAccessKey
      (p.dateIso8601.take 8) signingKeyDataLen with
  | none => (HashError, [], sub64 remaining0 L)
  | some s1 =>
    let rem1 := sub64 remaining0 L
    match completeHmac c s1.2 (s1.1.take L) p.region rem1 with
    | none => (HashError, s1.1, sub64 rem1 L)
    | some s2 =>
      let rem2 := sub64 rem1 L
      match completeHmac c s2.2 (s2.1.take L) p.service L with
      | none => (HashError, s2.1, rem2)
      | some s3 =>
        match completeHmac c s3.2 (s3.1.take L) CREDENTIAL_SCOPE_TERMINATOR L with
        | none => (HashError, s3.1, rem2)
        | some s4 => (Success, s4.1.take L, rem2)

/-- Pointer view of SigV4Credentials_t for the NULL checks of
verifySigV4Parameters. -/
structure SigV4CredentialsRef where
  pAccessKeyId : Option (List Nat)
  pSecretAccessKey : Option (List Nat)
  pSecurityToken : Option (List Nat)
  pExpiration : Option (List Nat)
  deriving DecidableEq

/-- Pointer view of the crypto interface for the NULL checks. -/
structure SigV4CryptoInterfaceRef where
  pHashContext : Option Unit
  deriving DecidableEq

/-- Pointer view of SigV4HttpParameters_t for the NULL checks. -/
structure SigV4HttpParametersRef where
  pHttpMethod : Option (List Nat)
  pQuery : Option (List Nat)
  pHeaders : Option (List Nat)
  deriving DecidableEq

/-- Pointer view of SigV4Parameters_t for the NULL checks. -/
structure SigV4ParametersRef where
  pCredentials : Option SigV4CredentialsRef
  pDateIso8601 : Option (List Nat)
  pRegion : Option (List Nat)
  pService : Option (List Nat)
  pCryptoInterface : Option SigV4CryptoInterfaceRef
  pHttpParameters : Option SigV4HttpParametersRef
  deriving DecidableEq

/-- verifySigV4Parameters (sigv4.c lines 1166-1248): the cascade of NULL
checks, each returning InvalidParameter.  The function inspects pointers
only, never lengths. -/
def verifySigV4Parameters (pParams : Option SigV4ParametersRef) : SigV4Status :=
  match pParams with
  | none => InvalidParameter
  | some p =>
    match p.pCredentials with
    | none => InvalidParameter
    | some c =>
      if c.pAccessKeyId = none then InvalidParameter
      else if c.pSecretAccessKey = none then InvalidParameter
      else if c.pSecurityToken = none then InvalidParameter
      else if c.pExpiration = none then InvalidParameter
      else if p.pDateIso8601 = none then InvalidParameter
      else if p.pRegion = none then InvalidParameter
      else if p.pService = none then InvalidParameter
      else
        match p.pCryptoInterface with
        | none => InvalidParameter
        | some ci =>
          if ci.pHashContext = none then InvalidParameter
          else
            match p.pHttpParameters with
            | none => InvalidParameter
            | some h =>
              if h.pHttpMethod = none then InvalidParameter
              else if h.pQuery = none then InvalidParameter
              else if h.pHeaders = none then InvalidParameter
              else Success

/-- URI step of SigV4_GenerateHTTPAuthorization (sigv4.c lines 1865-1899):
default the empty path to "/", copy it verbatim when flagged canonical,
and otherwise encode once exactly when the service, compared by
`serviceLen >= 2 && strncmp(pService, "s3", 2) == 0`, passes the S3 test;
every other service encodes twice. -/
def canonicalURIStep (p : SigV4Parameters) (ctx : CanonicalContext) :
    Except SigV4Status CanonicalContext :=
  let pPath := if p.http.path = [] then [47] else p.http.path
  if p.http.flags.pathCanonical then
    writeLineToCanonicalRequest pPath ctx
  else if 2 ≤ p.service.length ∧ strncmp p.service (chs ['s', '3']) 2 = 0 then
    generateCanonicalURI pPath false ctx
  else
    generateCanonicalURI pPath true ctx

/-- Query step of SigV4_GenerateHTTPAuthorization (sigv4.c lines
1901-1915). -/
def canonicalQueryStep (p : SigV4Parameters) (ctx : CanonicalContext) :
    Except SigV4Status CanonicalContext :=
  if p.http.flags.queryCanonical then
    writeLineToCanonicalRequest p.http.query ctx
  else
    generateCanonicalQuery p.http.query ctx

/-- Headers step of SigV4_GenerateHTTPAuthorization as the source has it
(sigv4.c lines 1917-1933): headers flagged canonical are copied verbatim,
and otherwise nothing happens, because the generateCanonicalHeaders call
at line 1930 is commented out. -/
def canonicalHeadersStepSource (p : SigV4Parameters) (ctx : CanonicalContext) :
    Except SigV4Status CanonicalContext :=
  if p.http.flags.headersCanonical then
    writeLineToCanonicalRequest p.http.headers ctx
  else
    .ok ctx

/-- Payload step of SigV4_GenerateHTTPAuthorization (sigv4.c lines
1935-1950): hash and hex-encode the payload into the arena (this source
hashes unconditionally; the payload-is-hash flag is never consulted). -/
def payloadHashStep (p : SigV4Parameters) (ctx : CanonicalContext) :
    Except SigV4Status CanonicalContext :=
  match completeHashAndHexEncode p.crypto p.http.payload ctx.bufRemaining with
  | .error e => .error e
  | .ok hex =>
    .ok ⟨ctx.out ++ hex, ctx.bufRemaining - 2 * p.crypto.hashDigestLen⟩

/-- Canonical-request assembly of SigV4_GenerateHTTPAuthorization with the
headers step supplied by the caller: method line, URI, query, headers,
payload hash, in that order, stopping at the first error. -/
def canonicalRequestPipeline (p : SigV4Parameters)
    (headersStep : CanonicalContext → Except SigV4Status CanonicalContext) :
    Except SigV4Status CanonicalContext :=
  match writeLineToCanonicalRequest p.http.httpMethod
      ⟨[], SIGV4_PROCESSING_BUFFER_LENGTH⟩ with
  | .error e => .error e
  | .ok c1 =>
    match canonicalURIStep p c1 with
    | .error e => .error e
    | .ok c2 =>
      match canonicalQueryStep p c2 with
      | .error e => .error e
      | .ok c3 =>
        match headersStep c3 with
        | .error e => .error e
        | .ok c4 => payloadHashStep p c4

/-- Canonical-request assembly exactly as the source performs it. -/
def canonicalRequestCtx (p : SigV4Parameters) :
    Except SigV4Status CanonicalContext :=
  canonicalRequestPipeline p (canonicalHeadersStepSource p)

/-- Result of SigV4_GenerateHTTPAuthorization.  `authBuf` is the caller's
authorization buffer as the function leaves it; `authBufLenOut` and
`signatureOut` are the values stored through the `authBufLen`,
`pSignature` and `signatureLen` out-parameters, `none` meaning the source
contains no store to them.  `processingBuf` is the byte range
`[pBufProcessing, pBufCur)` on return. -/
structure GenerateResult where
  status : SigV4Status
  authBuf : List Nat
  authBufLenOut : Option Nat
  signatureOut : Option (Nat × Nat)
  processingBuf : List Nat

/-- SigV4_GenerateHTTPAuthorization (sigv4.c lines 1839-1992).  The
verifySigV4Parameters call at line 1852 is commented out, so the pipeline
starts in the Success state; after the signing key is derived, the source
hex-encodes the signing key itself (not a final HMAC of the string to
sign) over the start of the processing buffer with a hard-coded capacity
of 64, prints it, and returns without storing anything to `pAuthBuf`,
`*authBufLen`, `*pSignature` or `*signatureLen`. -/
def SigV4_GenerateHTTPAuthorization (p : SigV4Parameters)
    (pAuthBuf : List Nat) : GenerateResult :=
  let mk := fun (st : SigV4Status) (buf : List Nat) =>
    ({ status := st, authBuf := pAuthBuf, authBufLenOut := none,
       signatureOut := none, processingBuf := buf } : GenerateResult)
  match canonicalRequestCtx p with
  | .error e => mk e []
  | .ok ctx =>
    match writeStringToSign p ctx with
    | .error e => mk e ctx.out
    | .ok ctx2 =>
      let g := generateSigningKey p ctx2.bufRemaining ctx2.bufRemaining
      if g.1 ≠ Success then
        mk g.1 ctx2.out
      else
        let L := p.crypto.hashDigestLen
        match lowercaseHexEncode (g.2.1.take L) 64 with
        | .error e => mk e ctx2.out
        | .ok hex => mk Success (hex ++ ctx2.out.drop (2 * L))

/-- ASCII whitespace inside a header line (space or horizontal tab). -/
def isHeaderWS (b : Nat) : Bool :=
  b == 32 || b == 9

/-- ASCII lower-casing of one byte. -/
def toLowerByte (b : Nat) : Nat :=
  if 65 ≤ b ∧ b ≤ 90 then b + 32 else b

/-- Leading and trailing whitespace removal. -/
def trimWS (l : List Nat) : List Nat :=
  ((l.dropWhile (fun b => isHeaderWS b)).reverse.dropWhile
    (fun b => isHeaderWS b)).reverse

/-- Whitespace-run collapsing of a header value (specification section
4.6): outside double quotes, a run of whitespace becomes one space; quoted
substrings pass verbatim.  `inQ` tracks the quote state and `lastWS`
whether the previous byte was collapsed whitespace. -/
def collapseWSGo (inQ lastWS : Bool) : List Nat → List Nat
  | [] => []
  | b :: rest =>
    if b = 34 then 34 :: collapseWSGo (!inQ) false rest
    else if !inQ && isHeaderWS b then
      if lastWS then collapseWSGo inQ true rest
      else 32 :: collapseWSGo inQ true rest
    else b :: collapseWSGo inQ false rest

/-- Header lines: split on CRLF; end-of-input closes a final unterminated
line (specification section 4.6). -/
def splitHeaderLines (cur : List Nat) : List Nat → List (List Nat)
  | [] => if cur = [] then [] else [cur.reverse]
  | 13 :: 10 :: rest => cur.reverse :: splitHeaderLines [] rest
  | b :: rest => splitHeaderLines (b :: cur) rest

/-- One parsed header: name downcased and trimmed, value trimmed and
whitespace-collapsed (specification section 4.6). -/
def headerPairOfLine (l : List Nat) : List Nat × List Nat :=
  let name := l.takeWhile (fun b => b ≠ 58)
  let v := (l.dropWhile (fun b => b ≠ 58)).drop 1
  ((trimWS name).map toLowerByte, collapseWSGo false false (trimWS v))

/-- All parsed headers, in input order, stopping at the first empty line
(specification section 4.6). -/
def headerPairsOf (headers : List Nat) : List (List Nat × List Nat) :=
  ((splitHeaderLines [] headers).takeWhile (fun l => l ≠ [])).map
    headerPairOfLine

/-- Dictionary ordering of byte strings (unsigned byte order; a proper
leading part sorts first). -/
def lexOrd : List Nat → List Nat → Ordering
  | [], [] => .eq
  | [], _ :: _ => .lt
  | _ :: _, [] => .gt
  | a :: as, b :: bs =>
    if a < b then .lt else if b < a then .gt else lexOrd as bs

/-- Stable insertion for the header sort: a new header moves before an
existing one only when its name is strictly smaller, so equal names keep
their input order (specification section 4.6). -/
def hdrInsert (x : List Nat × List Nat) :
    List (List Nat × List Nat) → List (List Nat × List Nat)
  | [] => [x]
  | y :: ys => if lexOrd x.1 y.1 = .lt then x :: y :: ys else y :: hdrInsert x ys

/-- Stable sort of headers by name (specification section 4.6). -/
def hdrSort : List (List Nat × List Nat) → List (List Nat × List Nat)
  | [] => []
  | x :: xs => hdrInsert x (hdrSort xs)

/-- The canonical headers block: for each header in sorted order,
`lowercase_name ":" trimmed_value "\n"` (specification section 4.6). -/
def canonicalHeadersBlockOf (headers : List Nat) : List Nat :=
  (hdrSort (headerPairsOf headers)).flatMap
    (fun nv => nv.1 ++ [58] ++ nv.2 ++ [LINEFEED_CHAR])

/-- The signed-headers list: the sorted lowercase names joined with
semicolons (specification section 4.6). -/
def signedHeadersOf (headers : List Nat) : List Nat :=
  List.intercalate [59] ((hdrSort (headerPairsOf headers)).map (fun nv => nv.1))

/-- Modelled from the spec: `generateCanonicalHeaders` is invoked (behind
a comment) at sigv4.c line 1930 but is not defined anywhere in the source;
sections 4.6 and 4.8 supply its contract.  It appends the canonical
headers block, the blank separator line, and the signed-headers list with
its linefeed, after checking the header cap and the arena capacity. -/
def generateCanonicalHeaders (headers : List Nat) (ctx : CanonicalContext) :
    Except SigV4Status CanonicalContext :=
  if (headerPairsOf headers).length > SIGV4_MAX_HTTP_HEADER_COUNT then
    .error MaxHeaderPairCountExceeded
  else
    let chunk := canonicalHeadersBlockOf headers ++ [LINEFEED_CHAR] ++
      signedHeadersOf headers ++ [LINEFEED_CHAR]
    if ctx.bufRemaining < chunk.length then
      .error InsufficientMemory
    else
      .ok ⟨ctx.out ++ chunk, ctx.bufRemaining - chunk.length⟩

/-- Headers step with the commented-out generateCanonicalHeaders call of
sigv4.c line 1930 restored (the specification requires it). -/
def canonicalHeadersStepRestored (p : SigV4Parameters) (ctx : CanonicalContext) :
    Except SigV4Status CanonicalContext :=
  if p.http.flags.headersCanonical then
    writeLineToCanonicalRequest p.http.headers ctx
  else
    generateCanonicalHeaders p.http.headers ctx

/-- Canonical-request assembly with the headers call restored, the
specified behaviour of the pipeline. -/
def canonicalRequestCtxWithHeaders (p : SigV4Parameters) :
    Except SigV4Status CanonicalContext :=
  canonicalRequestPipeline p (canonicalHeadersStepRestored p)

/-- Wrapping 64-bit increment, for the `++i` applied to a size_t holding
`low - 1U`. -/
def inc64 (n : Nat) : Nat :=
  (n + 1) % 2 ^ 64

/-- swap (sigv4_quicksort.c lines 81-98), as an index swap on the record
list; out-of-range indices leave the list unchanged (the C guard only
covers NULL pointers, but all reachable swaps below are in range or
examined explicitly). -/
def swapItems {α : Type} (arr : List α) (i j : Nat) : List α :=
  match arr[i]?, arr[j]? with
  | some x, some y => (arr.set i y).set j x
  | _, _ => arr

/-- Loop of partition (sigv4_quicksort.c lines 148-157): `j` walks from
`low` to `high - 1U` computed in size_t, so with `high = 0` the bound
wraps to SIZE_MAX.  A comparator read outside the array — undefined
behaviour in C — yields `none`; `fuel` bounds the recursion and one unit
per iteration starting from `arr.length + 2` never runs out, because `j`
grows every step and leaves the array after at most `arr.length + 1`
steps. -/
def partitionLoop {α : Type} (cmp : α → α → Int) (pivotIdx : Nat) :
    Nat → List α → Nat → Nat → Nat → Option (List α × Nat)
  | 0, _, _, _, _ => none
  | fuel + 1, arr, i, j, jmax =>
    if j ≤ jmax then
      match arr[j]?, arr[pivotIdx]? with
      | some aj, some piv =>
        if cmp aj piv < 0 then
          let i2 := inc64 i
          partitionLoop cmp pivotIdx fuel (swapItems arr i2 j) i2 (j + 1) jmax
        else
          partitionLoop cmp pivotIdx fuel arr i (j + 1) jmax
      | _, _ => none
    else
      some (arr, i)

/-- partition (sigv4_quicksort.c lines 135-160): Lomuto scheme with the
last element as pivot; returns the permuted list and the pivot's final
index. -/
def partition {α : Type} (cmp : α → α → Int) (arr : List α) (low high : Nat) :
    Option (List α × Nat) :=
  match partitionLoop cmp high (arr.length + 2) arr (sub64 low 1) low
      (sub64 high 1) with
  | none => none
  | some s =>
    let ip1 := inc64 s.2
    some (swapItems s.1 ip1 high, ip1)

/-- Loop of quickSortHelper (sigv4_quicksort.c lines 100-133): an explicit
range stack, popped two at a time (high first), with the sub-ranges of at
least two elements pushed back.  `none` propagates a partition fault or an
exhausted fuel. -/
def quickSortHelperLoop {α : Type} (cmp : α → α → Int) :
    Nat → List α → List Nat → Option (List α)
  | 0, _, _ => none
  | fuel + 1, arr, stack =>
    match stack with
    | [] => some arr
    | [_] => some arr
    | high :: low :: stackRest =>
      match partition cmp arr low high with
      | none => none
      | some s =>
        let st1 :=
          if s.2 ≠ 0 ∧ s.2 - 1 > low then (s.2 - 1) :: low :: stackRest
          else stackRest
        let st2 :=
          if s.2 + 1 < high then high :: (s.2 + 1) :: st1
          else st1
        quickSortHelperLoop cmp fuel s.1 st2

/-- quickSortHelper (sigv4_quicksort.c lines 100-133). -/
def quickSortHelper {α : Type} (cmp : α → α → Int) (arr : List α)
    (low high : Nat) : Option (List α) :=
  quickSortHelperLoop cmp (4 * arr.length + 4) arr [high, low]

/-- quickSort (sigv4_quicksort.c lines 162-171): nothing happens for an
empty array (or a NULL pointer, which the list model cannot distinguish);
otherwise the helper runs on the range `[0, numItems - 1]`. -/
def quickSort {α : Type} (cmp : α → α → Int) (arr : List α) :
    Option (List α) :=
  if arr.length ≠ 0 then
    quickSortHelper cmp arr 0 (arr.length - 1)
  else
    some arr

/-- Encoding of one byte as claimed by the specification (section 4.4):
`=` in double-encode mode gives the literal `%253D`, unreserved bytes (and
`/` when slashes are not encoded) pass verbatim, and every other byte —
including 0x00 — becomes `%XY` with upper-case hex. -/
def uriSpecEncodeByte (encodeSlash doubleEncodeEquals : Bool) (b : Nat) :
    List Nat :=
  if doubleEncodeEquals && b == 61 then
    [37, 50, 53, 51, 68]
  else if encodeURICopiesVerbatim encodeSlash b then
    [b]
  else
    [37, toUpperHexChar (b / 16), toUpperHexChar (b % 16)]

/-- Percent-encoding of a whole byte string as the specification describes
it: every one of the `uriLen` bytes is encoded, regardless of its value. -/
def uriSpecEncode (encodeSlash doubleEncodeEquals : Bool) (l : List Nat) :
    List Nat :=
  l.flatMap (uriSpecEncodeByte encodeSlash doubleEncodeEquals)

end SigV4


namespace SigV4
-- top-level scratch with a toy crypto interface
def demoCrypto : SigV4CryptoInterface :=
  ⟨fun l => (List.range 32).map (fun i => (l.length + i) % 256), 64, 32⟩

def demoDate : List Nat :=
  chs ['2','0','1','5','0','8','3','0','T','1','2','3','6','0','0','Z']

def demoParams : SigV4Parameters :=
  { credentials := ⟨chs ['A','K','I','D'], chs ['S','E','C','R','E','T']⟩
    dateIso8601 := demoDate
    algorithm := []
    region := chs ['u','s']
    service := chs ['i','a','m']
    crypto := demoCrypto
    http :=
      { httpMethod := chs ['G','E','T']
        path := []
        query := chs ['a','=','b']
        headers := chs ['h',':','v'] ++ [13,10]
        payload := []
        flags := ⟨false, false, false, false⟩ } }


/-- Record whose key and value bytes are free of 0x00 (the C comparator
reads them through `strncmp`, which stops at NUL bytes). -/
def nulFreeRec (r : SigV4KeyValuePair) : Prop :=
  (∀ x ∈ r.key, x ≠ 0) ∧ (∀ x ∈ valueBytes r, x ≠ 0)

/-- A parameter set whose service name is the 3 bytes `s3x`: it merely
begins with `s3` without being exactly `s3`, and its path `a b` contains a
byte that percent-encoding rewrites. -/
def p_s3x : SigV4Parameters :=
  { demoParams with
    service := chs ['s', '3', 'x']
    http := { demoParams.http with path := chs ['a', ' ', 'b'] } }

/-- The canonical-request context that the restored pipeline produces on
the demo parameters (the error arm is unreachable there). -/
def demoHeadersCtx : CanonicalContext :=
  match canonicalRequestCtxWithHeaders demoParams with
  | .ok c => c
  | .error _ => ⟨[], 0⟩
end SigV4

namespace SigV4
open SigV4Status

theorem encodeURIGo_eq_spec (cap : Nat) (es de : Bool) :
    ∀ (l : List Nat) (bc : Nat),
      bc + 5 * l.length ≤ cap → cap + 5 ≤ 2 ^ 64 →
      encodeURIGo cap es de l bc =
        ⟨Success, uriSpecEncode es de (l.takeWhile (fun b => b != 0)),
          bc + (uriSpecEncode es de (l.takeWhile (fun b => b != 0))).length⟩ := by
  intro l
  induction l with
  | nil =>
    intro bc h1 h2
    simp [encodeURIGo, uriSpecEncode]
  | cons b rest ih =>
    intro bc h1 h2
    by_cases hb0 : b = 0
    · subst hb0
      simp [encodeURIGo, uriSpecEncode]
    · have hb0' : (b != 0) = true := by simp [hb0]
      have hstep : bc + 5 ≤ cap := by
        simp [List.length_cons] at h1; omega
      have htw :
          (b :: rest).takeWhile (fun b => b != 0) =
            b :: rest.takeWhile (fun b => b != 0) := by
        simp [List.takeWhile_cons, hb0']
      cases hde : (de && b == 61) with
      | true =>
        have hrest : (bc + 5) + 5 * rest.length ≤ cap := by
          simp [List.length_cons] at h1; omega
        have hg : ¬ (bc > SIZE_MAX - 5 ∨ bc + 5 > cap) := by
          simp only [SIZE_MAX]; omega
        simp only [encodeURIGo, if_neg hb0, hde, if_true, if_neg hg,
          ih (bc + 5) hrest h2, htw, uriSpecEncode, List.flatMap_cons,
          uriSpecEncodeByte, List.length_append]
        simp [uriSpecEncodeByte, hde]
        omega
      | false =>
        cases hverb : encodeURICopiesVerbatim es b with
        | true =>
          have hrest : (bc + 1) + 5 * rest.length ≤ cap := by
            simp [List.length_cons] at h1; omega
          have hg : ¬ (bc + 1 > cap) := by omega
          simp only [encodeURIGo, if_neg hb0, hde, hverb, if_true, if_neg hg,
            Bool.false_eq_true, if_false, ih (bc + 1) hrest h2, htw,
            uriSpecEncode, List.flatMap_cons, uriSpecEncodeByte]
          simp [uriSpecEncodeByte, hde, hverb]
          omega
        | false =>
          have hrest : (bc + 3) + 5 * rest.length ≤ cap := by
            simp [List.length_cons] at h1; omega
          have hg : ¬ (bc > SIZE_MAX - 3 ∨ bc + 3 > cap) := by
            simp only [SIZE_MAX]; omega
          simp only [encodeURIGo, if_neg hb0, hde, hverb, Bool.false_eq_true,
            if_false, if_neg hg, ih (bc + 3) hrest h2, htw,
            uriSpecEncode, List.flatMap_cons, uriSpecEncodeByte]
          simp [uriSpecEncodeByte, hde, hverb]
          omega
end SigV4

namespace SigV4
open SigV4Status

/-- Claim C9, counterexample: encodeURI does not process all `uriLen`
bytes — the loop condition `i++ < uriLen && *pUriLoc` stops at the 0x00
byte of the input `['a', 0x00, 'b']`, so only `a` is emitted and the
claimed three-byte `%00` encoding never appears. -/
theorem claim_C9_counterexample :
    encodeURI [97, 0, 98] 100 false false = ⟨Success, [97], 1⟩ ∧
    uriSpecEncode false false [97, 0, 98] = [97, 37, 48, 48, 98] ∧
    (encodeURI [97, 0, 98] 100 false false).out ≠
      uriSpecEncode false false [97, 0, 98] := by
  decide

/-- Claim C9, amended: encodeURI encodes exactly the bytes before the
first 0x00 of the input (and at most `uriLen` of them), each by the
per-byte rule of the specification; a 0x00 byte stops the encoding and is
never emitted.  The capacity hypotheses keep every bounds check of the
loop satisfied. -/
theorem claim_C9 (pUri : List Nat) (cap : Nat) (es de : Bool)
    (hcap : 5 * pUri.length ≤ cap) (hsz : cap + 5 ≤ 2 ^ 64) :
    encodeURI pUri cap es de =
      ⟨Success, uriSpecEncode es de (pUri.takeWhile (fun b => b != 0)),
        (uriSpecEncode es de (pUri.takeWhile (fun b => b != 0))).length⟩ := by
  have h := encodeURIGo_eq_spec cap es de pUri 0 (by omega) hsz
  simpa [encodeURI] using h

/-- Claim C9, witness: the amended statement at the concrete input
`['a', '/', 0x00, '=']` with capacity 100 in double-encode mode. -/
theorem claim_C9_witness :
    5 * ([97, 47, 0, 61] : List Nat).length ≤ 100 ∧ 100 + 5 ≤ 2 ^ 64 ∧
    encodeURI [97, 47, 0, 61] 100 false true =
      ⟨Success,
        uriSpecEncode false true
          (([97, 47, 0, 61] : List Nat).takeWhile (fun b => b != 0)),
        (uriSpecEncode false true
          (([97, 47, 0, 61] : List Nat).takeWhile (fun b => b != 0))).length⟩ :=
  ⟨by decide, by decide, claim_C9 [97, 47, 0, 61] 100 false true (by decide) (by decide)⟩
end SigV4

namespace SigV4
open SigV4Status

/-- Claim C6: SigV4_AwsIotDateToIso8601 accepts 29 February exactly for
leap years — for an otherwise-valid date with month 2 and day 29,
validateDateTime succeeds if and only if
`year % 4 == 0 && (year % 100 != 0 || year % 400 == 0)` — and concretely
`2020-02-29T00:00:00Z` yields Success with the 16 bytes
`20200229T000000Z`, while `2019-02-29T00:00:00Z` yields
ISOFormattingError. -/
theorem claim_C6 (y hr mi se : Nat) (hy : 1900 ≤ y) (hh : hr ≤ 23)
    (hm : mi ≤ 59) (hs : se ≤ 60) :
    (validateDateTime ⟨y, 2, 29, hr, mi, se⟩ = Success ↔
      (y % 4 = 0 ∧ (y % 100 ≠ 0 ∨ y % 400 = 0))) ∧
    SigV4_AwsIotDateToIso8601
      (chs ['2','0','2','0','-','0','2','-','2','9',
            'T','0','0',':','0','0',':','0','0','Z']) 16 =
      (Success,
        chs ['2','0','2','0','0','2','2','9','T','0','0','0','0','0','0','Z']) ∧
    (SigV4_AwsIotDateToIso8601
      (chs ['2','0','1','9','-','0','2','-','2','9',
            'T','0','0',':','0','0',':','0','0','Z']) 16).1 =
      ISOFormattingError := by
  refine ⟨?_, by decide, by decide⟩
  simp only [validateDateTime, checkLeap, MONTH_DAYS, YEAR_MIN]
  simp only [List.getD, List.get?]
  split_ifs <;> simp_all <;> omega
end SigV4

namespace SigV4
open SigV4Status

/-- Claim C6, witness: the leap-day equivalence applied at year 2020 with
the time fields at zero, together with the two concrete conversions. -/
theorem claim_C6_witness :
    ((1900:Nat) ≤ 2020 ∧ (0:Nat) ≤ 23 ∧ (0:Nat) ≤ 59 ∧ (0:Nat) ≤ 60) ∧
    ((validateDateTime ⟨2020, 2, 29, 0, 0, 0⟩ = Success ↔
        (2020 % 4 = 0 ∧ (2020 % 100 ≠ 0 ∨ 2020 % 400 = 0))) ∧
      SigV4_AwsIotDateToIso8601
        (chs ['2','0','2','0','-','0','2','-','2','9',
              'T','0','0',':','0','0',':','0','0','Z']) 16 =
        (Success,
          chs ['2','0','2','0','0','2','2','9','T','0','0','0','0','0','0','Z']) ∧
      (SigV4_AwsIotDateToIso8601
        (chs ['2','0','1','9','-','0','2','-','2','9',
              'T','0','0',':','0','0',':','0','0','Z']) 16).1 =
        ISOFormattingError) :=
  ⟨by decide, claim_C6 2020 0 0 0 (by decide) (by decide) (by decide) (by decide)⟩
end SigV4

namespace SigV4
open SigV4Status

/-- Claim C10 (evidence for the defect): sorting the one-element array
`[5]` faults — partition(0, 0) computes the loop bound `high - 1U` in
`size_t`, which wraps to SIZE_MAX, so the comparator is applied to
`pArray[1]`, outside the array — while the empty array is returned
untouched and arrays of two or more records are sorted as described. -/
theorem claim_C10 :
    quickSort (fun a b => (a : Int) - b) ([5] : List Nat) = none ∧
    quickSort (fun a b => (a : Int) - b) ([] : List Nat) = some [] ∧
    quickSort (fun a b => (a : Int) - b) ([3, 1, 2] : List Nat) =
      some [1, 2, 3] ∧
    quickSort (fun a b => (a : Int) - b) ([2, 3, 1, 5, 4, 1] : List Nat) =
      some [1, 1, 2, 3, 4, 5] := by
  decide
end SigV4


namespace SigV4
open SigV4Status

theorem setQSLoop_skip_plain (q : List Nat) :
    ∀ (rem1 rem2 : List Nat) (i start : Nat) (fHV : Bool) (pend : List Nat)
      (recs : List SigV4KeyValuePair),
      (∀ b ∈ rem1, b ≠ 61 ∧ b ≠ 38) → rem2 ≠ [] →
      i + rem1.length + rem2.length = q.length →
      setQSLoop q (rem1 ++ rem2) i start fHV pend recs =
        setQSLoop q rem2 (i + rem1.length) start fHV pend recs := by
  intro rem1
  induction rem1 with
  | nil => intro rem2 i start fHV pend recs hb hne hlen; simp
  | cons b rest ih =>
    intro rem2 i start fHV pend recs hb hne hlen
    have hb1 := hb b (by simp)
    have hrest : ∀ x ∈ rest, x ≠ 61 ∧ x ≠ 38 := fun x hx => hb x (by simp [hx])
    have hlast : i ≠ q.length - 1 := by
      have h2 : 1 ≤ rem2.length := by
        cases rem2 with
        | nil => simp at hne
        | cons a l => simp
      simp [List.length_cons] at hlen
      omega
    simp only [List.cons_append, setQSLoop]
    rw [if_neg (by simp [hb1.1]), if_neg (by simp [hlast, hb1.2])]
    have := ih rem2 (i + 1) start fHV pend recs hrest hne
      (by simp [List.length_cons] at hlen ⊢; omega)
    simp only [List.append_eq]
    rw [this]
    simp only [List.length_cons]
    congr 1
    omega

theorem setQSLoop_close_last (q : List Nat) (b i start : Nat) (fHV : Bool)
    (pend : List Nat) (recs : List SigV4KeyValuePair)
    (hi : i + 1 = q.length) (hstart : start < q.length)
    (hb : ¬(b = 61 ∧ fHV = false)) :
    setQSLoop q [b] i start fHV pend recs =
      recs ++ [if fHV = false then
          (⟨sliceBytes q start q.length, none⟩ : SigV4KeyValuePair)
        else ⟨pend, some (sliceBytes q start q.length)⟩] := by
  have hlast : i = q.length - 1 := by omega
  simp only [setQSLoop]
  rw [if_neg hb, if_pos (Or.inl hlast), if_pos hlast,
    if_neg (show ¬(i + 1 - start = 0) by omega)]
  have hq : i + 1 = q.length := hi
  by_cases hf : fHV = false
  · rw [if_pos hf, if_pos hf, hq]
  · rw [if_neg hf, if_neg hf, hq]

theorem setQSLoop_close_equal_last (q : List Nat) (i start : Nat)
    (pend : List Nat) (recs : List SigV4KeyValuePair) :
    setQSLoop q [61] i start false pend recs = recs := by
  simp [setQSLoop]

theorem sliceBytes_zero_length (q : List Nat) :
    sliceBytes q 0 q.length = q := by
  simp [sliceBytes, List.take_length]

theorem sliceBytes_one_length (q : List Nat) :
    sliceBytes q 1 q.length = q.drop 1 := by
  simp [sliceBytes, List.take_length]
end SigV4

namespace SigV4
open SigV4Status

/-- Claim C8, counterexample: the parameter `=v` produces a record — with
empty key and value `v` — rather than no record, and the parameter `k=`
(empty value after `=`) produces no record at all rather than a record
with an empty value. -/
theorem claim_C8_counterexample :
    setQueryStringFieldsAndValues (chs ['=', 'v']) =
      [⟨[], some (chs ['v'])⟩] ∧
    setQueryStringFieldsAndValues (chs ['=', 'v']) ≠ [] ∧
    setQueryStringFieldsAndValues (chs ['k', '=']) = [] := by
  decide

/-- Claim C8, amended: during query splitting, a parameter of the form
`=v` produces one record whose key is empty and whose value is `v` (empty
keys are not dropped); a parameter of the form `k=` — an explicitly empty
value after `=` — produces no record; a bare parameter without `=`
produces one record whose value is the empty (NULL) slice; and a bare
empty segment between `&` separators produces no record of its own and no
error, though it leaves the segment start in place, so the following key
absorbs the separator (as in `a&&b`). -/
theorem claim_C8 :
    (∀ v : List Nat, v ≠ [] → (∀ b ∈ v, b ≠ 61 ∧ b ≠ 38) →
      setQueryStringFieldsAndValues (61 :: v) = [⟨[], some v⟩]) ∧
    (∀ k : List Nat, k ≠ [] → (∀ b ∈ k, b ≠ 61 ∧ b ≠ 38) →
      setQueryStringFieldsAndValues (k ++ [61]) = []) ∧
    (∀ k : List Nat, k ≠ [] → (∀ b ∈ k, b ≠ 61 ∧ b ≠ 38) →
      setQueryStringFieldsAndValues k = [⟨k, none⟩]) ∧
    setQueryStringFieldsAndValues (chs ['a', '&', '&', 'b']) =
      [⟨chs ['a'], none⟩, ⟨chs ['&', 'b'], none⟩] := by
  refine ⟨?_, ?_, ?_, by decide⟩
  · intro v hne hb
    rcases (List.eq_nil_or_concat v) with h | ⟨init, last, rfl⟩
    · exact absurd h hne
    · simp only [List.concat_eq_append] at hb ⊢
      have hlast := hb last (by simp)
      have hinit : ∀ b ∈ init, b ≠ 61 ∧ b ≠ 38 :=
        fun b hbm => hb b (by simp [hbm])
      show setQSLoop (61 :: (init ++ [last])) (61 :: (init ++ [last]))
        0 0 false [] [] = _
      rw [show (61 :: (init ++ [last])) = [] ++ (61 :: (init ++ [last])) by simp]
      simp only [setQSLoop, List.nil_append]
      rw [if_pos (by simp)]
      rw [setQSLoop_skip_plain _ init [last] 1 1 true (sliceBytes _ 0 0) []
        hinit (by simp) (by simp; omega)]
      rw [setQSLoop_close_last _ last (1 + init.length) 1 true
        (sliceBytes _ 0 0) [] (by simp; omega) (by simp) (by simp)]
      rw [if_neg (by simp)]
      have hlen1 : (61 :: (init ++ [last])).length = (init ++ [last]).length + 1 := by
        simp
      have := sliceBytes_one_length (61 :: (init ++ [last]))
      simp only [this]
      simp [sliceBytes]
  · intro k hne hb
    show setQSLoop (k ++ [61]) (k ++ [61]) 0 0 false [] [] = _
    rw [setQSLoop_skip_plain _ k [61] 0 0 false [] [] hb (by simp) (by simp)]
    rw [setQSLoop_close_equal_last]
  · intro k hne hb
    rcases (List.eq_nil_or_concat k) with h | ⟨init, last, rfl⟩
    · exact absurd h hne
    · simp only [List.concat_eq_append] at hb ⊢
      have hlast := hb last (by simp)
      have hinit : ∀ b ∈ init, b ≠ 61 ∧ b ≠ 38 :=
        fun b hbm => hb b (by simp [hbm])
      show setQSLoop (init ++ [last]) (init ++ [last]) 0 0 false [] [] = _
      rw [setQSLoop_skip_plain _ init [last] 0 0 false [] []
        hinit (by simp) (by simp)]
      rw [setQSLoop_close_last _ last (0 + init.length) 0 false [] []
        (by simp) (by simp) (by simp [hlast.1])]
      rw [if_pos rfl, sliceBytes_zero_length]
      simp

/-- Claim C8, witness: the three universal parts applied at concrete
parameters `=v`, `k=` and `k`. -/
theorem claim_C8_witness :
    ((chs ['v'] ≠ [] ∧ ∀ b ∈ chs ['v'], b ≠ 61 ∧ b ≠ 38) ∧
      (chs ['k'] ≠ [] ∧ ∀ b ∈ chs ['k'], b ≠ 61 ∧ b ≠ 38)) ∧
    setQueryStringFieldsAndValues (61 :: chs ['v']) =
      [⟨[], some (chs ['v'])⟩] ∧
    setQueryStringFieldsAndValues (chs ['k'] ++ [61]) = [] ∧
    setQueryStringFieldsAndValues (chs ['k']) = [⟨chs ['k'], none⟩] :=
  ⟨⟨⟨by decide, by decide⟩, ⟨by decide, by decide⟩⟩,
    claim_C8.1 (chs ['v']) (by decide) (by decide),
    claim_C8.2.1 (chs ['k']) (by decide) (by decide),
    claim_C8.2.2.1 (chs ['k']) (by decide) (by decide)⟩
end SigV4

namespace SigV4
open SigV4Status

theorem strncmp_eq_byteCmpN :
    ∀ (n : Nat) (a b : List Nat), (∀ x ∈ a, x ≠ 0) →
      strncmp a b n = byteCmpN a b n := by
  intro n
  induction n with
  | zero => intro a b ha; cases a <;> cases b <;> simp [strncmp, byteCmpN]
  | succ m ih =>
    intro a b ha
    cases a with
    | nil => simp [strncmp, byteCmpN]
    | cons x xs =>
      cases b with
      | nil => simp [strncmp, byteCmpN]
      | cons y ys =>
        by_cases hxy : x = y
        · subst hxy
          have hx : x ≠ 0 := ha x (by simp)
          simp [strncmp, byteCmpN, hx, ih xs ys (fun z hz => ha z (by simp [hz]))]
        · simp [strncmp, byteCmpN, hxy]

theorem byteCmpN_self_zero : ∀ (n : Nat) (a : List Nat), byteCmpN a a n = 0 := by
  intro n
  induction n with
  | zero => intro a; cases a <;> simp [byteCmpN]
  | succ m ih =>
    intro a
    cases a with
    | nil => simp [byteCmpN]
    | cons x xs => simp [byteCmpN, ih xs]

theorem byteCmpN_zero_take :
    ∀ (n : Nat) (a b : List Nat), n ≤ a.length → n ≤ b.length →
      byteCmpN a b n = 0 → a.take n = b.take n := by
  intro n
  induction n with
  | zero => intro a b _ _ _; simp
  | succ m ih =>
    intro a b ha hb h
    cases a with
    | nil => simp at ha
    | cons x xs =>
      cases b with
      | nil => simp at hb
      | cons y ys =>
        by_cases hxy : x = y
        · subst hxy
          rw [byteCmpN, if_neg (fun hh => hh rfl)] at h
          have h2 := ih xs ys (by simpa using ha) (by simpa using hb) h
          simp [List.take_succ_cons, h2]
        · rw [byteCmpN, if_pos hxy] at h
          exfalso
          have : (x : Int) = y := by omega
          exact hxy (by exact_mod_cast this)

theorem specFieldCmp_zero_eq (a b : List Nat) (h : specFieldCmp a b = 0) :
    a = b := by
  simp only [specFieldCmp] at h
  by_cases hc : byteCmpN a b (min a.length b.length) = 0
  · rw [if_neg (by simp [hc])] at h
    by_cases hl : a.length = b.length
    · have htake := byteCmpN_zero_take (min a.length b.length) a b
        (by omega) (by omega) hc
      have hmin : min a.length b.length = a.length := by omega
      rw [hmin, List.take_length, hl, List.take_length] at htake
      exact htake
    · rw [if_neg hl] at h
      split_ifs at h
      omega
  · rw [if_pos (by simp [hc])] at h
    exact absurd h hc
end SigV4

namespace SigV4
open SigV4Status

theorem lexOrd_eq_iff : ∀ a b : List Nat, lexOrd a b = .eq ↔ a = b := by
  intro a
  induction a with
  | nil => intro b; cases b <;> simp [lexOrd]
  | cons x xs ih =>
    intro b
    cases b with
    | nil => simp [lexOrd]
    | cons y ys =>
      by_cases hxy : x = y
      · subst hxy
        simp [lexOrd, ih ys]
      · rcases Nat.lt_trichotomy x y with h | h | h
        · simp [lexOrd, h, hxy]
        · exact absurd h hxy
        · simp [lexOrd, Nat.lt_asymm h, h, hxy]

theorem lexOrd_swap : ∀ a b : List Nat, lexOrd b a = (lexOrd a b).swap := by
  intro a
  induction a with
  | nil => intro b; cases b <;> simp [lexOrd, Ordering.swap]
  | cons x xs ih =>
    intro b
    cases b with
    | nil => simp [lexOrd, Ordering.swap]
    | cons y ys =>
      rcases Nat.lt_trichotomy x y with h | h | h
      · simp [lexOrd, h, Nat.lt_asymm h, Ordering.swap]
      · subst h
        simp [lexOrd, ih ys]
      · simp [lexOrd, h, Nat.lt_asymm h, Ordering.swap]

theorem lexOrd_lt_trans :
    ∀ a b c : List Nat, lexOrd a b = .lt → lexOrd b c = .lt →
      lexOrd a c = .lt := by
  intro a
  induction a with
  | nil =>
    intro b c hab hbc
    cases c with
    | nil =>
      cases b with
      | nil => simp [lexOrd] at hab
      | cons y ys => simp [lexOrd] at hbc
    | cons z zs => simp [lexOrd]
  | cons x xs ih =>
    intro b c hab hbc
    cases b with
    | nil => simp [lexOrd] at hab
    | cons y ys =>
      cases c with
      | nil => simp [lexOrd] at hbc
      | cons z zs =>
        simp only [lexOrd] at hab hbc ⊢
        rcases Nat.lt_trichotomy x y with h1 | h1 | h1
        · rcases Nat.lt_trichotomy y z with h2 | h2 | h2
          · simp [show x < z by omega]
          · subst h2; simp [h1]
          · rw [if_neg (by omega), if_pos h2] at hbc
            simp at hbc
        · subst h1
          rcases Nat.lt_trichotomy x z with h2 | h2 | h2
          · simp [h2]
          · subst h2
            rw [if_neg (by omega), if_neg (by omega)] at hab hbc ⊢
            exact ih ys zs hab hbc
          · rw [if_neg (by omega), if_pos h2] at hbc
            simp at hbc
        · rw [if_neg (by omega), if_pos h1] at hab
          simp at hab

theorem specFieldCmp_cons_same (x : Nat) (xs ys : List Nat) :
    specFieldCmp (x :: xs) (x :: ys) = specFieldCmp xs ys := by
  simp only [specFieldCmp, List.length_cons, Nat.succ_min_succ, byteCmpN,
    if_neg (fun hh : x ≠ x => hh rfl)]
  split_ifs <;> simp_all

theorem specFieldCmp_lexOrd :
    ∀ a b : List Nat,
      (specFieldCmp a b < 0 ↔ lexOrd a b = .lt) ∧
      (specFieldCmp a b = 0 ↔ lexOrd a b = .eq) := by
  intro a
  induction a with
  | nil =>
    intro b
    cases b with
    | nil => simp [specFieldCmp, byteCmpN, lexOrd]
    | cons y ys => simp [specFieldCmp, byteCmpN, lexOrd]
  | cons x xs ih =>
    intro b
    cases b with
    | nil => simp [specFieldCmp, byteCmpN, lexOrd]
    | cons y ys =>
      by_cases hxy : x = y
      · subst hxy
        rw [specFieldCmp_cons_same]
        simpa [lexOrd] using ih ys
      · have hne : ((x : Int) - y) ≠ 0 := by
          intro hh
          exact hxy (by omega)
        have hcmp : specFieldCmp (x :: xs) (y :: ys) = (x : Int) - y := by
          simp only [specFieldCmp, List.length_cons, Nat.succ_min_succ,
            byteCmpN, if_pos hxy]
          rw [if_pos (by simpa using hne)]
        rcases Nat.lt_trichotomy x y with h | h | h
        · rw [hcmp]
          simp only [lexOrd, if_pos h]
          have e1 : (x : Int) - y < 0 := by omega
          have e2 : ¬ ((x : Int) - y = 0) := by omega
          simp [e1, e2]
        · exact absurd h hxy
        · rw [hcmp]
          simp only [lexOrd, if_neg (by omega : ¬ x < y), if_pos h]
          have e1 : ¬ ((x : Int) - y < 0) := by omega
          have e2 : ¬ ((x : Int) - y = 0) := by omega
          simp [e1, e2]

theorem specFieldCmp_self (a : List Nat) : specFieldCmp a a = 0 := by
  simp [specFieldCmp, byteCmpN_self_zero]
end SigV4

namespace SigV4
open SigV4Status

theorem specFieldCmp_gt_iff (a b : List Nat) :
    0 < specFieldCmp a b ↔ lexOrd a b = .gt := by
  have h := specFieldCmp_lexOrd a b
  rcases ho : lexOrd a b with _ | _ | _
  · have := h.1.2 ho
    constructor
    · intro hh; omega
    · intro hh; simp at hh
  · have := h.2.2 ho
    constructor
    · intro hh; omega
    · intro hh; simp at hh
  · constructor
    · intro _; rfl
    · intro _
      have h1 : ¬ specFieldCmp a b < 0 := fun hh => by simp [h.1.1 hh] at ho
      have h2 : ¬ specFieldCmp a b = 0 := fun hh => by simp [h.2.1 hh] at ho
      omega

theorem specFieldCmp_le_trans (a b c : List Nat)
    (h1 : specFieldCmp a b ≤ 0) (h2 : specFieldCmp b c ≤ 0) :
    specFieldCmp a c ≤ 0 := by
  by_cases e1 : specFieldCmp a b = 0
  · rw [specFieldCmp_zero_eq a b e1]
    exact h2
  · by_cases e2 : specFieldCmp b c = 0
    · rw [← specFieldCmp_zero_eq b c e2]
      exact h1
    · have l1 := (specFieldCmp_lexOrd a b).1.1 (by omega)
      have l2 := (specFieldCmp_lexOrd b c).1.1 (by omega)
      have := (specFieldCmp_lexOrd a c).1.2 (lexOrd_lt_trans a b c l1 l2)
      omega

theorem specFieldCmp_le_total (a b : List Nat) :
    specFieldCmp a b ≤ 0 ∨ specFieldCmp b a ≤ 0 := by
  by_cases e : specFieldCmp a b ≤ 0
  · exact Or.inl e
  · right
    have hgt := (specFieldCmp_gt_iff a b).1 (by omega)
    have hlt : lexOrd b a = .lt := by
      rw [lexOrd_swap a b, hgt]
      rfl
    have := (specFieldCmp_lexOrd b a).1.2 hlt
    omega

theorem cmpQueryFieldValueSpec_keyEq (r1 r2 : SigV4KeyValuePair)
    (h : r1.key = r2.key) :
    cmpQueryFieldValueSpec r1 r2 =
      specFieldCmp (valueBytes r1) (valueBytes r2) := by
  simp only [cmpQueryFieldValueSpec, h, specFieldCmp_self]
  rw [if_neg (fun hh : (0 : Int) ≠ 0 => hh rfl)]

theorem cmpQueryFieldValueSpec_keyNe (r1 r2 : SigV4KeyValuePair)
    (h : specFieldCmp r1.key r2.key ≠ 0) :
    cmpQueryFieldValueSpec r1 r2 = specFieldCmp r1.key r2.key := by
  simp only [cmpQueryFieldValueSpec]
  rw [if_pos h]

theorem cmpQueryFieldValueSpec_le_trans (a b c : SigV4KeyValuePair)
    (h1 : cmpQueryFieldValueSpec a b ≤ 0)
    (h2 : cmpQueryFieldValueSpec b c ≤ 0) :
    cmpQueryFieldValueSpec a c ≤ 0 := by
  by_cases e1 : specFieldCmp a.key b.key = 0
  · have hk1 := specFieldCmp_zero_eq _ _ e1
    rw [cmpQueryFieldValueSpec_keyEq a b hk1] at h1
    by_cases e2 : specFieldCmp b.key c.key = 0
    · have hk2 := specFieldCmp_zero_eq _ _ e2
      rw [cmpQueryFieldValueSpec_keyEq b c hk2] at h2
      rw [cmpQueryFieldValueSpec_keyEq a c (hk1.trans hk2)]
      exact specFieldCmp_le_trans _ _ _ h1 h2
    · rw [cmpQueryFieldValueSpec_keyNe b c e2] at h2
      have : specFieldCmp a.key c.key ≠ 0 := by
        rw [hk1]
        exact e2
      rw [cmpQueryFieldValueSpec_keyNe a c this, hk1]
      exact h2
  · rw [cmpQueryFieldValueSpec_keyNe a b e1] at h1
    by_cases e2 : specFieldCmp b.key c.key = 0
    · have hk2 := specFieldCmp_zero_eq _ _ e2
      have : specFieldCmp a.key c.key ≠ 0 := by
        rw [← hk2]
        exact e1
      rw [cmpQueryFieldValueSpec_keyNe a c this, ← hk2]
      exact h1
    · rw [cmpQueryFieldValueSpec_keyNe b c e2] at h2
      have l1 := (specFieldCmp_lexOrd a.key b.key).1.1 (by omega)
      have l2 := (specFieldCmp_lexOrd b.key c.key).1.1 (by omega)
      have l3 := lexOrd_lt_trans _ _ _ l1 l2
      have h3 := (specFieldCmp_lexOrd a.key c.key).1.2 l3
      rw [cmpQueryFieldValueSpec_keyNe a c (by omega)]
      omega

theorem cmpQueryFieldValueSpec_le_total (a b : SigV4KeyValuePair) :
    cmpQueryFieldValueSpec a b ≤ 0 ∨ cmpQueryFieldValueSpec b a ≤ 0 := by
  by_cases e : specFieldCmp a.key b.key = 0
  · have hk := specFieldCmp_zero_eq _ _ e
    rw [cmpQueryFieldValueSpec_keyEq a b hk,
      cmpQueryFieldValueSpec_keyEq b a hk.symm]
    exact specFieldCmp_le_total _ _
  · have e2 : specFieldCmp b.key a.key ≠ 0 := by
      intro hh
      exact e (by rw [specFieldCmp_zero_eq _ _ hh, specFieldCmp_self])
    rw [cmpQueryFieldValueSpec_keyNe a b e, cmpQueryFieldValueSpec_keyNe b a e2]
    rcases specFieldCmp_le_total a.key b.key with h | h
    · exact Or.inl h
    · exact Or.inr h
end SigV4

namespace SigV4
open SigV4Status

theorem cmpQueryFieldValue_eq_spec (r1 r2 : SigV4KeyValuePair)
    (h1 : nulFreeRec r1) (_h2 : nulFreeRec r2) :
    cmpQueryFieldValue r1 r2 = cmpQueryFieldValueSpec r1 r2 := by
  have hk := strncmp_eq_byteCmpN (min r1.key.length r2.key.length)
    r1.key r2.key h1.1
  have hv := strncmp_eq_byteCmpN
    (min (valueBytes r1).length (valueBytes r2).length)
    (valueBytes r1) (valueBytes r2) h1.2
  simp only [cmpQueryFieldValue, cmpQueryFieldValueSpec, specFieldCmp, hk, hv]
  split_ifs <;> first | omega | simp_all

theorem cmpQueryFieldValueSpec_zero (r1 r2 : SigV4KeyValuePair)
    (h : cmpQueryFieldValueSpec r1 r2 = 0) :
    r1.key = r2.key ∧ valueBytes r1 = valueBytes r2 := by
  by_cases hk : specFieldCmp r1.key r2.key = 0
  · have hkeq := specFieldCmp_zero_eq _ _ hk
    rw [cmpQueryFieldValueSpec_keyEq r1 r2 hkeq] at h
    exact ⟨hkeq, specFieldCmp_zero_eq _ _ h⟩
  · rw [cmpQueryFieldValueSpec_keyNe r1 r2 hk] at h
    exact absurd h hk

theorem mem_qsortInsert (le : SigV4KeyValuePair → SigV4KeyValuePair → Bool)
    (x y : SigV4KeyValuePair) :
    ∀ l, y ∈ qsortInsert le x l → y = x ∨ y ∈ l := by
  intro l
  induction l with
  | nil =>
    intro h
    simp [qsortInsert] at h
    exact Or.inl h
  | cons z zs ih =>
    intro h
    simp only [qsortInsert] at h
    by_cases hle : le x z
    · rw [if_pos hle] at h
      rcases List.mem_cons.1 h with rfl | h2
      · exact Or.inl rfl
      · exact Or.inr h2
    · rw [if_neg hle] at h
      rcases List.mem_cons.1 h with rfl | h2
      · exact Or.inr (List.mem_cons_self _ _)
      · rcases ih h2 with h3 | h3
        · exact Or.inl h3
        · exact Or.inr (List.mem_cons_of_mem _ h3)

theorem mem_qsortModel (le : SigV4KeyValuePair → SigV4KeyValuePair → Bool) :
    ∀ l y, y ∈ qsortModel le l → y ∈ l := by
  intro l
  induction l with
  | nil => intro y h; simp [qsortModel] at h
  | cons x xs ih =>
    intro y h
    simp only [qsortModel] at h
    rcases mem_qsortInsert le x y _ h with rfl | h2
    · exact List.mem_cons_self _ _
    · exact List.mem_cons_of_mem _ (ih y h2)

theorem pairwise_qsortInsert (x : SigV4KeyValuePair) (hx : nulFreeRec x) :
    ∀ l, (∀ r ∈ l, nulFreeRec r) →
      l.Pairwise (fun a b => cmpQueryFieldValueSpec a b ≤ 0) →
      (qsortInsert cmpQueryFieldValueLe x l).Pairwise
        (fun a b => cmpQueryFieldValueSpec a b ≤ 0) := by
  intro l
  induction l with
  | nil =>
    intro _ _
    simp [qsortInsert]
  | cons z zs ih =>
    intro hnf hp
    have hz := hnf z (by simp)
    simp only [qsortInsert]
    by_cases hle : cmpQueryFieldValueLe x z
    · rw [if_pos hle]
      have hxz : cmpQueryFieldValueSpec x z ≤ 0 := by
        have heq := cmpQueryFieldValue_eq_spec x z hx hz
        simp only [cmpQueryFieldValueLe, decide_eq_true_eq] at hle
        omega
      refine List.pairwise_cons.2 ⟨?_, hp⟩
      intro b hb
      rcases List.mem_cons.1 hb with rfl | hb2
      · exact hxz
      · exact cmpQueryFieldValueSpec_le_trans x z b hxz
          ((List.pairwise_cons.1 hp).1 b hb2)
    · rw [if_neg hle]
      have hzx : cmpQueryFieldValueSpec z x ≤ 0 := by
        have heq := cmpQueryFieldValue_eq_spec x z hx hz
        simp only [cmpQueryFieldValueLe, decide_eq_true_eq] at hle
        rcases cmpQueryFieldValueSpec_le_total x z with h | h
        · omega
        · exact h
      refine List.pairwise_cons.2 ⟨?_, ?_⟩
      · intro b hb
        rcases mem_qsortInsert _ x b zs hb with rfl | hb2
        · exact hzx
        · exact (List.pairwise_cons.1 hp).1 b hb2
      · exact ih (fun r hr => hnf r (by simp [hr])) (List.pairwise_cons.1 hp).2

theorem pairwise_qsortModel :
    ∀ l : List SigV4KeyValuePair, (∀ r ∈ l, nulFreeRec r) →
      (qsortModel cmpQueryFieldValueLe l).Pairwise
        (fun a b => cmpQueryFieldValueSpec a b ≤ 0) := by
  intro l
  induction l with
  | nil =>
    intro _
    simp [qsortModel]
  | cons x xs ih =>
    intro hnf
    simp only [qsortModel]
    exact pairwise_qsortInsert x (hnf x (by simp)) _
      (fun r hr => hnf r (List.mem_cons_of_mem _ (mem_qsortModel _ xs r hr)))
      (ih (fun r hr => hnf r (by simp [hr])))
end SigV4

namespace SigV4
open SigV4Status

theorem sliceBytes_mem (q : List Nat) (a b x : Nat) (h : x ∈ sliceBytes q a b) :
    x ∈ q := by
  exact List.take_subset b q (List.drop_subset a (q.take b) h)

theorem setQSLoop_records_mem (q : List Nat) :
    ∀ (rem : List Nat) (i start : Nat) (fHV : Bool) (pend : List Nat)
      (recs : List SigV4KeyValuePair),
      (∀ r ∈ recs, (∀ x ∈ r.key, x ∈ q) ∧ (∀ x ∈ valueBytes r, x ∈ q)) →
      (∀ x ∈ pend, x ∈ q) →
      ∀ r ∈ setQSLoop q rem i start fHV pend recs,
        (∀ x ∈ r.key, x ∈ q) ∧ (∀ x ∈ valueBytes r, x ∈ q) := by
  intro rem
  induction rem with
  | nil =>
    intro i start fHV pend recs hrecs hpend r hr
    exact hrecs r hr
  | cons b rest ih =>
    intro i start fHV pend recs hrecs hpend r hr
    simp only [setQSLoop] at hr
    have hnewNone : ∀ s e : Nat,
        (∀ x ∈ (⟨sliceBytes q s e, none⟩ : SigV4KeyValuePair).key, x ∈ q) ∧
        (∀ x ∈ valueBytes (⟨sliceBytes q s e, none⟩ : SigV4KeyValuePair), x ∈ q) := by
      intro s e
      refine ⟨fun x hx => sliceBytes_mem q s e x hx, ?_⟩
      intro x hx
      simp [valueBytes] at hx
    have hnewSome : ∀ s e : Nat,
        (∀ x ∈ (⟨pend, some (sliceBytes q s e)⟩ : SigV4KeyValuePair).key, x ∈ q) ∧
        (∀ x ∈ valueBytes (⟨pend, some (sliceBytes q s e)⟩ : SigV4KeyValuePair), x ∈ q) := by
      intro s e
      refine ⟨fun x hx => hpend x hx, ?_⟩
      intro x hx
      simp only [valueBytes, Option.getD_some] at hx
      exact sliceBytes_mem q s e x hx
    split_ifs at hr with c1 c2 c3 c4 c5 c6 c7
    · exact ih (i + 1) (i + 1) true (sliceBytes q start i) recs hrecs
        (fun x hx => sliceBytes_mem q start i x hx) r hr
    · exact hrecs r hr
    · rcases List.mem_append.1 hr with h | h
      · exact hrecs r h
      · rcases List.mem_singleton.1 h with rfl
        exact hnewNone start (i + 1)
    · rcases List.mem_append.1 hr with h | h
      · exact hrecs r h
      · rcases List.mem_singleton.1 h with rfl
        exact hnewSome start (i + 1)
    · exact ih (i + 1) start fHV pend recs hrecs hpend r hr
    · rcases List.mem_append.1 hr with h | h
      · exact hrecs r h
      · rcases List.mem_singleton.1 h with rfl
        exact hnewNone start i
    · exact ih (i + 1) (i + 1) fHV pend (recs ++ [⟨sliceBytes q start i, none⟩])
        (fun s hs => by
          rcases List.mem_append.1 hs with h | h
          · exact hrecs s h
          · rcases List.mem_singleton.1 h with rfl
            exact hnewNone start i) hpend r hr
    · rcases List.mem_append.1 hr with h | h
      · exact hrecs r h
      · rcases List.mem_singleton.1 h with rfl
        exact hnewSome start i
    · exact ih (i + 1) (i + 1) false pend
        (recs ++ [⟨pend, some (sliceBytes q start i)⟩])
        (fun s hs => by
          rcases List.mem_append.1 hs with h | h
          · exact hrecs s h
          · rcases List.mem_singleton.1 h with rfl
            exact hnewSome start i) hpend r hr
    · exact ih (i + 1) start fHV pend recs hrecs hpend r hr

theorem setQueryStringFieldsAndValues_nulFree (q : List Nat)
    (hq : ∀ x ∈ q, x ≠ 0) :
    ∀ r ∈ setQueryStringFieldsAndValues q, nulFreeRec r := by
  intro r hr
  have := setQSLoop_records_mem q q 0 0 false [] []
    (fun s hs => by simp at hs) (fun x hx => by simp at hx) r hr
  exact ⟨fun x hx => hq x (this.1 x hx), fun x hx => hq x (this.2 x hx)⟩
end SigV4

namespace SigV4
open SigV4Status

/-- Claim C7, counterexample: the comparator compares keys with
`strncmp`, which stops at 0x00 bytes, so on the query
`a\x00b=x&a\x00c=x` the two distinct records tie (comparator 0) even
though the claimed byte-order rule separates them strictly. -/
theorem claim_C7_counterexample :
    setQueryStringFieldsAndValues
        [97, 0, 98, 61, 120, 38, 97, 0, 99, 61, 120] =
      [⟨[97, 0, 98], some [120]⟩, ⟨[97, 0, 99], some [120]⟩] ∧
    cmpQueryFieldValue ⟨[97, 0, 98], some [120]⟩ ⟨[97, 0, 99], some [120]⟩ = 0 ∧
    (⟨[97, 0, 98], some [120]⟩ : SigV4KeyValuePair) ≠
      ⟨[97, 0, 99], some [120]⟩ ∧
    cmpQueryFieldValueSpec ⟨[97, 0, 98], some [120]⟩
      ⟨[97, 0, 99], some [120]⟩ < 0 := by
  decide

/-- Claim C7, amended: provided no key or value byte is 0x00,
cmpQueryFieldValue computes exactly the claimed order — unsigned byte
comparison of keys over the first min length bytes, shorter key first on a
tie, then the same rule on values — distinct records never tie (a
comparator value of 0 forces equal keys and equal value bytes), the
records emitted in the canonical query are sorted by that order, and the
input `b=2&a=1&b=1` emits `a=1&b=1&b=2`. -/
theorem claim_C7 :
    (∀ r1 r2 : SigV4KeyValuePair, nulFreeRec r1 → nulFreeRec r2 →
      cmpQueryFieldValue r1 r2 = cmpQueryFieldValueSpec r1 r2 ∧
      (cmpQueryFieldValue r1 r2 = 0 →
        r1.key = r2.key ∧ valueBytes r1 = valueBytes r2)) ∧
    (∀ q : List Nat, (∀ x ∈ q, x ≠ 0) →
      (qsortModel cmpQueryFieldValueLe
        (setQueryStringFieldsAndValues q)).Pairwise
        (fun a b => cmpQueryFieldValueSpec a b ≤ 0)) ∧
    generateCanonicalQuery
        (chs ['b', '=', '2', '&', 'a', '=', '1', '&', 'b', '=', '1'])
        ⟨[], SIGV4_PROCESSING_BUFFER_LENGTH⟩ =
      .ok ⟨chs ['a', '=', '1', '&', 'b', '=', '1', '&', 'b', '=', '2'] ++
            [LINEFEED_CHAR], SIGV4_PROCESSING_BUFFER_LENGTH - 12⟩ := by
  refine ⟨?_, ?_, by rfl⟩
  · intro r1 r2 h1 h2
    have heq := cmpQueryFieldValue_eq_spec r1 r2 h1 h2
    refine ⟨heq, ?_⟩
    intro hz
    exact cmpQueryFieldValueSpec_zero r1 r2 (by rw [← heq]; exact hz)
  · intro q hq
    exact pairwise_qsortModel _ (setQueryStringFieldsAndValues_nulFree q hq)

/-- Claim C7, witness: the comparator equivalence at two concrete NUL-free
records, and the sortedness statement at the concrete query
`b=2&a=1&b=1`. -/
theorem claim_C7_witness :
    (nulFreeRec ⟨chs ['b'], some (chs ['2'])⟩ ∧
      nulFreeRec ⟨chs ['a'], some (chs ['1'])⟩ ∧
      (∀ x ∈ chs ['b', '=', '2', '&', 'a', '=', '1', '&', 'b', '=', '1'],
        x ≠ 0)) ∧
    (cmpQueryFieldValue ⟨chs ['b'], some (chs ['2'])⟩
        ⟨chs ['a'], some (chs ['1'])⟩ =
      cmpQueryFieldValueSpec ⟨chs ['b'], some (chs ['2'])⟩
        ⟨chs ['a'], some (chs ['1'])⟩ ∧
      (cmpQueryFieldValue ⟨chs ['b'], some (chs ['2'])⟩
          ⟨chs ['a'], some (chs ['1'])⟩ = 0 →
        (⟨chs ['b'], some (chs ['2'])⟩ : SigV4KeyValuePair).key =
          (⟨chs ['a'], some (chs ['1'])⟩ : SigV4KeyValuePair).key ∧
        valueBytes ⟨chs ['b'], some (chs ['2'])⟩ =
          valueBytes ⟨chs ['a'], some (chs ['1'])⟩)) ∧
    (qsortModel cmpQueryFieldValueLe
      (setQueryStringFieldsAndValues
        (chs ['b', '=', '2', '&', 'a', '=', '1', '&', 'b', '=', '1']))).Pairwise
      (fun a b => cmpQueryFieldValueSpec a b ≤ 0) :=
  ⟨⟨⟨by decide, by decide⟩, ⟨by decide, by decide⟩, by decide⟩,
    claim_C7.1 ⟨chs ['b'], some (chs ['2'])⟩ ⟨chs ['a'], some (chs ['1'])⟩
      ⟨by decide, by decide⟩ ⟨by decide, by decide⟩,
    claim_C7.2.1 (chs ['b', '=', '2', '&', 'a', '=', '1', '&', 'b', '=', '1'])
      (by decide)⟩
end SigV4

namespace SigV4
open SigV4Status

theorem generateSigningKey_status (p : SigV4Parameters)
    (signingKeyDataLen remaining0 : Nat) :
    (generateSigningKey p signingKeyDataLen remaining0).1 = Success ∨
    (generateSigningKey p signingKeyDataLen remaining0).1 = HashError := by
  simp only [generateSigningKey]
  split
  · exact Or.inr rfl
  · split
    · exact Or.inr rfl
    · split
      · exact Or.inr rfl
      · split
        · exact Or.inr rfl
        · exact Or.inl rfl

/-- Claim C4 (evidence for the defect): generateSigningKey never returns
InsufficientMemory — the source line
`returnStatus == SigV4InsufficientMemory;` compares instead of assigning —
and concretely the call with `*pBytesRemaining = 0` (digest length 32,
`pSigningKey->dataLen = 64`) runs all four HMAC stages and returns
Success instead of failing the `remaining < 2 * digestLen` capacity
check. -/
theorem claim_C4 :
    (∀ (p : SigV4Parameters) (signingKeyDataLen remaining0 : Nat),
      (generateSigningKey p signingKeyDataLen remaining0).1 ≠
        InsufficientMemory) ∧
    ((generateSigningKey demoParams 64 0).1 = Success ∧
      0 < 2 * demoParams.crypto.hashDigestLen) := by
  constructor
  · intro p dl r0
    rcases generateSigningKey_status p dl r0 with h | h <;> simp [h]
  · exact ⟨by rfl, by decide⟩
end SigV4

namespace SigV4
open SigV4Status

theorem encodeURIGo_status (cap : Nat) (es de : Bool) :
    ∀ (l : List Nat) (bc : Nat),
      (encodeURIGo cap es de l bc).status = Success ∨
      (encodeURIGo cap es de l bc).status = InsufficientMemory := by
  intro l
  induction l with
  | nil => intro bc; exact Or.inl rfl
  | cons b rest ih =>
    intro bc
    simp only [encodeURIGo]
    split_ifs <;>
      first
        | exact Or.inl rfl
        | exact Or.inr rfl
        | exact ih _

theorem encodeURI_status (u : List Nat) (cap : Nat) (es de : Bool) :
    (encodeURI u cap es de).status = Success ∨
    (encodeURI u cap es de).status = InsufficientMemory :=
  encodeURIGo_status cap es de u 0

theorem writeLineToCanonicalRequest_err (l : List Nat) (ctx : CanonicalContext)
    (e : SigV4Status) (h : writeLineToCanonicalRequest l ctx = .error e) :
    e = InsufficientMemory := by
  unfold writeLineToCanonicalRequest at h
  split_ifs at h
  simp only [Except.error.injEq] at h
  exact h.symm

theorem generateCanonicalURI_err (u : List Nat) (tw : Bool)
    (ctx : CanonicalContext) (e : SigV4Status)
    (h : generateCanonicalURI u tw ctx = .error e) :
    e = InsufficientMemory := by
  simp only [generateCanonicalURI] at h
  by_cases c1 : (encodeURI u ctx.bufRemaining false false).status ≠ Success
  · rw [if_pos c1] at h
    simp only [Except.error.injEq] at h
    rcases encodeURI_status u ctx.bufRemaining false false with hs | hs
    · exact absurd hs c1
    · rw [← h]
      exact hs
  · rw [if_neg c1] at h
    by_cases ct : tw = true
    · rw [if_pos ct] at h
      by_cases c2 : (encodeURI (encodeURI u ctx.bufRemaining false false).out
          (ctx.bufRemaining - (encodeURI u ctx.bufRemaining false false).written)
          false false).status ≠ Success
      · rw [if_pos c2] at h
        simp only [Except.error.injEq] at h
        rcases encodeURI_status (encodeURI u ctx.bufRemaining false false).out
            (ctx.bufRemaining -
              (encodeURI u ctx.bufRemaining false false).written)
            false false with hs | hs
        · exact absurd hs c2
        · rw [← h]
          exact hs
      · rw [if_neg c2] at h
        split_ifs at h
        simp only [Except.error.injEq] at h
        exact h.symm
    · rw [if_neg ct] at h
      split_ifs at h
      simp only [Except.error.injEq] at h
      exact h.symm
end SigV4

namespace SigV4
open SigV4Status

theorem writeCQPKeyValue_status (ctx : CanonicalContext)
    (p : SigV4KeyValuePair) :
    (writeCQPKeyValue ctx p).1 = Success ∨
    (writeCQPKeyValue ctx p).1 = InsufficientMemory := by
  simp only [writeCQPKeyValue]
  have e1 := encodeURI_status p.key ctx.bufRemaining true false
  by_cases c1 : (encodeURI p.key ctx.bufRemaining true false).status = Success
  · rw [if_pos c1]
    split
    next v hv =>
      by_cases c2 : v.length > 0
      · rw [if_pos c2]
        by_cases c3 : ctx.bufRemaining -
            (encodeURI p.key ctx.bufRemaining true false).written < 1
        · rw [if_pos c3]
          exact Or.inr rfl
        · rw [if_neg c3]
          have e2 := encodeURI_status v
            (ctx.bufRemaining -
              (encodeURI p.key ctx.bufRemaining true false).written - 1)
            true true
          by_cases c4 : (encodeURI v
              (ctx.bufRemaining -
                (encodeURI p.key ctx.bufRemaining true false).written - 1)
              true true).status = Success
          · rw [if_pos c4]
            exact Or.inl rfl
          · rw [if_neg c4]
            rcases e2 with hs | hs
            · exact absurd hs c4
            · exact Or.inr hs
      · rw [if_neg c2]
        exact Or.inl rfl
    next => exact Or.inl rfl
  · rw [if_neg c1]
    rcases e1 with hs | hs
    · exact absurd hs c1
    · exact Or.inr hs

theorem writeCanonicalQueryParameters_err :
    ∀ (recs : List SigV4KeyValuePair) (ctx : CanonicalContext)
      (e : SigV4Status),
      writeCanonicalQueryParameters ctx recs = .error e →
      e = InsufficientMemory := by
  intro recs
  induction recs with
  | nil =>
    intro ctx e h
    simp [writeCanonicalQueryParameters] at h
  | cons p rest ih =>
    intro ctx e h
    simp only [writeCanonicalQueryParameters] at h
    split_ifs at h with c1 c2 c3
    · simp only [Except.error.injEq] at h
      exact h.symm
    · exact ih _ _ h
    · simp only [Except.error.injEq] at h
      rcases writeCQPKeyValue_status ctx p with hs | hs
      · exact absurd hs c3
      · rw [← h]
        exact hs
    · exact ih _ _ h

theorem generateCanonicalQuery_err (qbytes : List Nat)
    (ctx : CanonicalContext) (e : SigV4Status)
    (h : generateCanonicalQuery qbytes ctx = .error e) :
    e = InsufficientMemory ∨ e = MaxQueryPairCountExceeded := by
  simp only [generateCanonicalQuery] at h
  split_ifs at h with c1
  · simp only [Except.error.injEq] at h
    exact Or.inr h.symm
  · rcases hw : writeCanonicalQueryParameters ctx
        (qsortModel cmpQueryFieldValueLe
          (setQueryStringFieldsAndValues qbytes)) with e2 | c2
    · rw [hw] at h
      simp only [Except.error.injEq] at h
      rw [← h]
      exact Or.inl (writeCanonicalQueryParameters_err _ _ _ hw)
    · rw [hw] at h
      simp at h
end SigV4

namespace SigV4
open SigV4Status

theorem canonicalURIStep_err (p : SigV4Parameters) (ctx : CanonicalContext)
    (e : SigV4Status) (h : canonicalURIStep p ctx = .error e) :
    e ≠ InvalidParameter := by
  simp only [canonicalURIStep] at h
  split_ifs at h <;>
    first
      | (rw [writeLineToCanonicalRequest_err _ _ _ h]; simp)
      | (rw [generateCanonicalURI_err _ _ _ _ h]; simp)

theorem canonicalQueryStep_err (p : SigV4Parameters) (ctx : CanonicalContext)
    (e : SigV4Status) (h : canonicalQueryStep p ctx = .error e) :
    e ≠ InvalidParameter := by
  simp only [canonicalQueryStep] at h
  split_ifs at h
  · rw [writeLineToCanonicalRequest_err _ _ _ h]
    simp
  · rcases generateCanonicalQuery_err _ _ _ h with he | he <;> simp [he]

theorem canonicalHeadersStepSource_err (p : SigV4Parameters)
    (ctx : CanonicalContext) (e : SigV4Status)
    (h : canonicalHeadersStepSource p ctx = .error e) :
    e ≠ InvalidParameter := by
  simp only [canonicalHeadersStepSource] at h
  split_ifs at h
  rw [writeLineToCanonicalRequest_err _ _ _ h]
  simp

theorem completeHashAndHexEncode_err (c : SigV4CryptoInterface)
    (input : List Nat) (cap : Nat) (e : SigV4Status)
    (h : completeHashAndHexEncode c input cap = .error e) :
    e = InsufficientMemory := by
  simp only [completeHashAndHexEncode] at h
  split_ifs at h
  simp_all

theorem payloadHashStep_err (p : SigV4Parameters) (ctx : CanonicalContext)
    (e : SigV4Status) (h : payloadHashStep p ctx = .error e) :
    e ≠ InvalidParameter := by
  simp only [payloadHashStep] at h
  rcases hc : completeHashAndHexEncode p.crypto p.http.payload
      ctx.bufRemaining with e2 | ok <;> rw [hc] at h
  · simp only [Except.error.injEq] at h
    rw [← h, completeHashAndHexEncode_err _ _ _ _ hc]
    simp
  · simp at h

theorem writeStringToSign_err (p : SigV4Parameters) (ctx : CanonicalContext)
    (e : SigV4Status) (h : writeStringToSign p ctx = .error e) :
    e = InsufficientMemory := by
  simp only [writeStringToSign] at h
  rcases hc : completeHashAndHexEncode p.crypto ctx.out
      ctx.bufRemaining with e2 | ok <;> rw [hc] at h
  · simp only [Except.error.injEq] at h
    rw [← h]
    exact completeHashAndHexEncode_err _ _ _ _ hc
  · split_ifs at h <;> simp_all

theorem lowercaseHexEncode_err (input : List Nat) (capLen : Nat)
    (e : SigV4Status) (h : lowercaseHexEncode input capLen = .error e) :
    e = InsufficientMemory := by
  simp only [lowercaseHexEncode] at h
  split_ifs at h
  simp_all

theorem canonicalRequestPipeline_err (p : SigV4Parameters)
    (hStep : CanonicalContext → Except SigV4Status CanonicalContext)
    (hs : ∀ ctx e, hStep ctx = .error e → e ≠ InvalidParameter)
    (e : SigV4Status) (h : canonicalRequestPipeline p hStep = .error e) :
    e ≠ InvalidParameter := by
  simp only [canonicalRequestPipeline] at h
  rcases h1 : writeLineToCanonicalRequest p.http.httpMethod
      ⟨[], SIGV4_PROCESSING_BUFFER_LENGTH⟩ with e1 | c1 <;>
    rw [h1] at h <;> dsimp only at h
  · simp only [Except.error.injEq] at h
    rw [← h, writeLineToCanonicalRequest_err _ _ _ h1]
    simp
  · rcases h2 : canonicalURIStep p c1 with e2 | c2 <;>
      rw [h2] at h <;> dsimp only at h
    · simp only [Except.error.injEq] at h
      rw [← h]
      exact canonicalURIStep_err _ _ _ h2
    · rcases h3 : canonicalQueryStep p c2 with e3 | c3 <;>
        rw [h3] at h <;> dsimp only at h
      · simp only [Except.error.injEq] at h
        rw [← h]
        exact canonicalQueryStep_err _ _ _ h3
      · rcases h4 : hStep c3 with e4 | c4 <;>
          rw [h4] at h <;> dsimp only at h
        · simp only [Except.error.injEq] at h
          rw [← h]
          exact hs _ _ h4
        · exact payloadHashStep_err _ _ _ h

theorem canonicalRequestCtx_err (p : SigV4Parameters) (e : SigV4Status)
    (h : canonicalRequestCtx p = .error e) : e ≠ InvalidParameter :=
  canonicalRequestPipeline_err p (canonicalHeadersStepSource p)
    (canonicalHeadersStepSource_err p) e h

/-- Claim C3 (evidence for the defect): the verifySigV4Parameters call at
sigv4.c line 1852 is commented out, so the top-level signing function can
never return SigV4InvalidParameter, on any input — while the dead verifier
itself reports SigV4InvalidParameter both for a NULL parameter struct and
for a struct whose credentials pointer is NULL. -/
theorem claim_C3 :
    (∀ (p : SigV4Parameters) (authBuf : List Nat),
      (SigV4_GenerateHTTPAuthorization p authBuf).status ≠
        InvalidParameter) ∧
    verifySigV4Parameters none = InvalidParameter ∧
    verifySigV4Parameters
      (some
        { pCredentials := none
          pDateIso8601 := some []
          pRegion := some []
          pService := some []
          pCryptoInterface := some ⟨some ()⟩
          pHttpParameters := some ⟨some [], some [], some []⟩ }) =
      InvalidParameter := by
  refine ⟨?_, rfl, rfl⟩
  intro p authBuf
  simp only [SigV4_GenerateHTTPAuthorization]
  rcases h1 : canonicalRequestCtx p with e1 | c1 <;> dsimp only
  · exact canonicalRequestCtx_err p e1 h1
  · rcases h2 : writeStringToSign p c1 with e2 | c2 <;> dsimp only
    · show e2 ≠ InvalidParameter
      rw [writeStringToSign_err _ _ _ h2]
      simp
    · rcases generateSigningKey_status p c2.bufRemaining c2.bufRemaining
        with hs | hs
      · rw [if_neg (by rw [hs]; simp)]
        rcases h3 : lowercaseHexEncode
            ((generateSigningKey p c2.bufRemaining c2.bufRemaining).2.1.take
              p.crypto.hashDigestLen) 64 with e3 | hex <;> dsimp only
        · show e3 ≠ InvalidParameter
          rw [lowercaseHexEncode_err _ _ _ h3]
          simp
        · simp
      · rw [if_pos (by rw [hs]; simp)]
        show (generateSigningKey p c2.bufRemaining c2.bufRemaining).1 ≠
          InvalidParameter
        rw [hs]
        simp
end SigV4

namespace SigV4
open SigV4Status

/-- Claim C1 (evidence for the defect): SigV4_GenerateHTTPAuthorization
never writes the caller's authorization buffer, never reports its length
and never returns a signature location — on every input the authorization
buffer comes back unchanged and both output pointers stay unset — even on
an input for which the function reports Success. -/
theorem claim_C1 :
    (∀ (p : SigV4Parameters) (authBuf : List Nat),
      (SigV4_GenerateHTTPAuthorization p authBuf).authBuf = authBuf ∧
      (SigV4_GenerateHTTPAuthorization p authBuf).authBufLenOut = none ∧
      (SigV4_GenerateHTTPAuthorization p authBuf).signatureOut = none) ∧
    (SigV4_GenerateHTTPAuthorization demoParams (chs ['x'])).status =
      Success := by
  refine ⟨?_, by rfl⟩
  intro p authBuf
  simp only [SigV4_GenerateHTTPAuthorization]
  rcases canonicalRequestCtx p with e1 | c1 <;> dsimp only
  · exact ⟨rfl, rfl, rfl⟩
  · rcases writeStringToSign p c1 with e2 | c2 <;> dsimp only
    · exact ⟨rfl, rfl, rfl⟩
    · split_ifs
      · exact ⟨rfl, rfl, rfl⟩
      · rcases lowercaseHexEncode
            ((generateSigningKey p c2.bufRemaining c2.bufRemaining).2.1.take
              p.crypto.hashDigestLen) 64 with e3 | hex <;>
          exact ⟨rfl, rfl, rfl⟩
end SigV4


namespace SigV4
open SigV4Status

theorem takeWhile_ne_zero (l : List Nat) (h : ∀ b ∈ l, b ≠ 0) :
    l.takeWhile (fun b => b != 0) = l := by
  induction l with
  | nil => rfl
  | cons b rest ih =>
    have hb : (b != 0) = true := by
      simp only [bne_iff_ne, ne_eq]
      exact h b (by simp)
    rw [List.takeWhile_cons, hb]
    simp only [if_true]
    rw [ih (fun c hc => h c (by simp [hc]))]

theorem uriSpecEncodeByte_length_le (es de : Bool) (b : Nat) :
    (uriSpecEncodeByte es de b).length ≤ 5 := by
  simp only [uriSpecEncodeByte]
  split_ifs <;> simp

theorem uriSpecEncode_length_le (es de : Bool) (l : List Nat) :
    (uriSpecEncode es de l).length ≤ 5 * l.length := by
  induction l with
  | nil => simp [uriSpecEncode]
  | cons b rest ih =>
    simp only [uriSpecEncode, List.flatMap_cons, List.length_append,
      List.length_cons] at ih ⊢
    have := uriSpecEncodeByte_length_le es de b
    omega

theorem toUpperHexChar_ne_zero (v : Nat) : toUpperHexChar v ≠ 0 := by
  simp only [toUpperHexChar]
  split_ifs <;> omega

theorem uriSpecEncodeByte_nulFree (es de : Bool) (b : Nat) (hb : b ≠ 0) :
    ∀ c ∈ uriSpecEncodeByte es de b, c ≠ 0 := by
  intro c hc
  simp only [uriSpecEncodeByte] at hc
  split_ifs at hc
  · simp only [List.mem_cons, List.not_mem_nil, or_false] at hc
    rcases hc with h | h | h | h | h <;> omega
  · simp only [List.mem_cons, List.not_mem_nil, or_false] at hc
    omega
  · simp only [List.mem_cons, List.not_mem_nil, or_false] at hc
    rcases hc with h | h | h
    · omega
    · rw [h]; exact toUpperHexChar_ne_zero _
    · rw [h]; exact toUpperHexChar_ne_zero _

theorem uriSpecEncode_nulFree (es de : Bool) (l : List Nat)
    (h : ∀ b ∈ l, b ≠ 0) : ∀ c ∈ uriSpecEncode es de l, c ≠ 0 := by
  induction l with
  | nil => simp [uriSpecEncode]
  | cons b rest ih =>
    intro c hc
    simp only [uriSpecEncode, List.flatMap_cons, List.mem_append] at hc
    rcases hc with hc | hc
    · exact uriSpecEncodeByte_nulFree es de b (h b (by simp)) c hc
    · exact ih (fun d hd => h d (by simp [hd])) c hc

theorem s3_test_iff (svc : List Nat) :
    (2 ≤ svc.length ∧ strncmp svc (chs ['s', '3']) 2 = 0) ↔
    (2 ≤ svc.length ∧ svc.take 2 = chs ['s', '3']) := by
  match svc with
  | [] => simp
  | [a] => simp
  | a :: b :: rest =>
    have hch : chs ['s', '3'] = [115, 51] := by decide
    rw [hch]
    have htake : (a :: b :: rest).take 2 = [a, b] := rfl
    have hz : strncmp (a :: b :: rest) [115, 51] 2 = 0 ↔ a = 115 ∧ b = 51 := by
      show strncmp (a :: b :: rest) (115 :: 51 :: []) (1 + 1) = 0 ↔ _
      rw [strncmp]
      by_cases h1 : a = 115
      · rw [if_neg (by omega), if_neg (by omega)]
        show strncmp (b :: rest) (51 :: []) (0 + 1) = 0 ↔ _
        rw [strncmp]
        by_cases h3 : b = 51
        · rw [if_neg (by omega), if_neg (by omega)]
          have h0 : strncmp rest [] 0 = 0 := by cases rest <;> rfl
          rw [h0]
          simp [h1, h3]
        · rw [if_pos (by omega)]
          constructor
          · intro hq
            exfalso
            omega
          · intro hq
            exact absurd hq.2 h3
      · rw [if_pos (by omega)]
        constructor
        · intro hq
          exfalso
          omega
        · intro hq
          exact absurd hq.1 h1
    constructor
    · rintro ⟨hl, hstr⟩
      rcases hz.1 hstr with ⟨ha, hb⟩
      exact ⟨hl, by rw [htake, ha, hb]⟩
    · rintro ⟨hl, ht⟩
      rw [htake] at ht
      simp only [List.cons.injEq, and_true] at ht
      exact ⟨hl, hz.2 ⟨ht.1, ht.2⟩⟩

theorem generateCanonicalURI_spec_once (pUri : List Nat)
    (ctx : CanonicalContext) (hnul : ∀ b ∈ pUri, b ≠ 0)
    (hcap : 5 * pUri.length + 1 ≤ ctx.bufRemaining)
    (hcap2 : ctx.bufRemaining + 5 ≤ 2 ^ 64) :
    generateCanonicalURI pUri false ctx =
      .ok ⟨ctx.out ++ uriSpecEncode false false pUri ++ [LINEFEED_CHAR],
        ctx.bufRemaining - (uriSpecEncode false false pUri).length - 1⟩ := by
  have hself := takeWhile_ne_zero pUri hnul
  have hr1 := encodeURIGo_eq_spec ctx.bufRemaining false false pUri 0
    (by omega) hcap2
  rw [hself] at hr1
  have hlen := uriSpecEncode_length_le false false pUri
  simp only [generateCanonicalURI, encodeURI]
  rw [hr1]
  dsimp only
  rw [if_neg (fun hh : Success ≠ Success => hh rfl),
    if_neg Bool.false_ne_true,
    if_neg (show ¬(ctx.bufRemaining -
      (0 + (uriSpecEncode false false pUri).length) < 1) by omega)]
  simp

theorem generateCanonicalURI_spec_twice (pUri : List Nat)
    (ctx : CanonicalContext) (hnul : ∀ b ∈ pUri, b ≠ 0)
    (hcap : 30 * pUri.length + 1 ≤ ctx.bufRemaining)
    (hcap2 : ctx.bufRemaining + 5 ≤ 2 ^ 64) :
    generateCanonicalURI pUri true ctx =
      .ok ⟨ctx.out ++
          uriSpecEncode false false (uriSpecEncode false false pUri) ++
          [LINEFEED_CHAR],
        ctx.bufRemaining -
          (uriSpecEncode false false
            (uriSpecEncode false false pUri)).length - 1⟩ := by
  have hself := takeWhile_ne_zero pUri hnul
  have hlen := uriSpecEncode_length_le false false pUri
  have hr1 := encodeURIGo_eq_spec ctx.bufRemaining false false pUri 0
    (by omega) hcap2
  rw [hself] at hr1
  have hnul2 := uriSpecEncode_nulFree false false pUri hnul
  have hself2 := takeWhile_ne_zero _ hnul2
  have hlen2 := uriSpecEncode_length_le false false
    (uriSpecEncode false false pUri)
  have hr2 := encodeURIGo_eq_spec
    (ctx.bufRemaining - (uriSpecEncode false false pUri).length) false false
    (uriSpecEncode false false pUri) 0 (by omega) (by omega)
  rw [hself2] at hr2
  simp only [generateCanonicalURI, encodeURI]
  rw [hr1]
  dsimp only
  rw [if_neg (fun hh : Success ≠ Success => hh rfl), if_pos trivial]
  rw [show (0 + (uriSpecEncode false false pUri).length) =
    (uriSpecEncode false false pUri).length by omega]
  rw [hr2]
  dsimp only
  rw [if_neg (fun hh : Success ≠ Success => hh rfl),
    if_neg (show ¬(ctx.bufRemaining -
      (0 + (uriSpecEncode false false
        (uriSpecEncode false false pUri)).length) < 1) by omega)]
  simp

/-- Claim C5 counterexample: the service name `s3x` is not the 2-byte name
`s3`, so the claim demands double encoding of its path, yet the canonical
URI step single-encodes: for path `a b` it emits `a%20b` where double
encoding would emit the different string `a%2520b`. -/
theorem claim_C5_counterexample :
    (2 ≤ p_s3x.service.length ∧ p_s3x.service ≠ chs ['s', '3']) ∧
    canonicalURIStep p_s3x ⟨[], 4096⟩ =
      .ok ⟨uriSpecEncode false false p_s3x.http.path ++ [LINEFEED_CHAR],
        4090⟩ ∧
    uriSpecEncode false false
        (uriSpecEncode false false p_s3x.http.path) ≠
      uriSpecEncode false false p_s3x.http.path := by
  refine ⟨⟨by decide, by decide⟩, by rfl, by decide⟩

/-- Claim C5 (amended): when the path is not flagged canonical and is a
non-empty NUL-free byte string that fits the remaining buffer, the
canonical URI is percent-encoded exactly once if and only if the service
name is at least 2 bytes long and BEGINS with the bytes `s3` — the source
tests `serviceLen >= 2 && strncmp(pService, "s3", 2) == 0`, a prefix
match, so longer names such as `s3x` also single-encode; every other
service name is encoded twice. -/
theorem claim_C5 (p : SigV4Parameters) (ctx : CanonicalContext)
    (hflag : p.http.flags.pathCanonical = false)
    (hne : p.http.path ≠ [])
    (hnul : ∀ b ∈ p.http.path, b ≠ 0)
    (hcap : 30 * p.http.path.length + 1 ≤ ctx.bufRemaining)
    (hcap2 : ctx.bufRemaining + 5 ≤ 2 ^ 64) :
    canonicalURIStep p ctx =
      .ok ⟨ctx.out ++
          (if 2 ≤ p.service.length ∧ p.service.take 2 = chs ['s', '3'] then
            uriSpecEncode false false p.http.path
          else
            uriSpecEncode false false
              (uriSpecEncode false false p.http.path)) ++
          [LINEFEED_CHAR],
        ctx.bufRemaining -
          (if 2 ≤ p.service.length ∧ p.service.take 2 = chs ['s', '3'] then
            uriSpecEncode false false p.http.path
          else
            uriSpecEncode false false
              (uriSpecEncode false false p.http.path)).length - 1⟩ := by
  have hstep : canonicalURIStep p ctx =
      if 2 ≤ p.service.length ∧ strncmp p.service (chs ['s', '3']) 2 = 0 then
        generateCanonicalURI p.http.path false ctx
      else
        generateCanonicalURI p.http.path true ctx := by
    simp only [canonicalURIStep, hflag, if_neg hne]
    rw [if_neg (by simp)]
  by_cases hs3 : 2 ≤ p.service.length ∧ p.service.take 2 = chs ['s', '3']
  · rw [hstep, if_pos ((s3_test_iff p.service).2 hs3), if_pos hs3]
    exact generateCanonicalURI_spec_once p.http.path ctx hnul (by omega) hcap2
  · rw [hstep, if_neg (fun hc => hs3 ((s3_test_iff p.service).1 hc)),
      if_neg hs3]
    exact generateCanonicalURI_spec_twice p.http.path ctx hnul hcap hcap2

/-- Witness for claim C5 at the concrete input p_s3x (service `s3x`, path
`a b`, 4096 bytes remaining): every hypothesis holds and the canonical URI
step gives the single-encoded output that the amended claim computes. -/
theorem claim_C5_witness :
    (p_s3x.http.flags.pathCanonical = false ∧
      p_s3x.http.path ≠ [] ∧
      (∀ b ∈ p_s3x.http.path, b ≠ 0) ∧
      30 * p_s3x.http.path.length + 1 ≤ (4096 : Nat) ∧
      (4096 : Nat) + 5 ≤ 2 ^ 64) ∧
    canonicalURIStep p_s3x ⟨[], 4096⟩ =
      .ok ⟨[] ++
          (if 2 ≤ p_s3x.service.length ∧
              p_s3x.service.take 2 = chs ['s', '3'] then
            uriSpecEncode false false p_s3x.http.path
          else
            uriSpecEncode false false
              (uriSpecEncode false false p_s3x.http.path)) ++
          [LINEFEED_CHAR],
        4096 -
          (if 2 ≤ p_s3x.service.length ∧
              p_s3x.service.take 2 = chs ['s', '3'] then
            uriSpecEncode false false p_s3x.http.path
          else
            uriSpecEncode false false
              (uriSpecEncode false false p_s3x.http.path)).length - 1⟩ :=
  ⟨⟨by decide, by decide, by decide, by decide, by decide⟩,
    claim_C5 p_s3x ⟨[], 4096⟩ (by decide) (by decide) (by decide)
      (by decide) (by decide)⟩
end SigV4


namespace SigV4
open SigV4Status

theorem writeLineToCanonicalRequest_ok_out (l : List Nat)
    (ctx ctx2 : CanonicalContext)
    (h : writeLineToCanonicalRequest l ctx = .ok ctx2) :
    ∃ s, ctx2.out = ctx.out ++ s := by
  simp only [writeLineToCanonicalRequest] at h
  split_ifs at h
  simp only [Except.ok.injEq] at h
  exact ⟨l ++ [LINEFEED_CHAR], by rw [← h, List.append_assoc]⟩

theorem generateCanonicalURI_ok_out (u : List Nat) (tw : Bool)
    (ctx ctx2 : CanonicalContext)
    (h : generateCanonicalURI u tw ctx = .ok ctx2) :
    ∃ s, ctx2.out = ctx.out ++ s := by
  simp only [generateCanonicalURI] at h
  split_ifs at h <;> simp only [Except.ok.injEq] at h <;>
    exact ⟨_, by rw [← h, List.append_assoc]⟩

theorem writeCQPKeyValue_out (ctx : CanonicalContext)
    (p : SigV4KeyValuePair) :
    ∃ s, (writeCQPKeyValue ctx p).2.1 = ctx.out ++ s := by
  rcases hv : p.value with _ | v <;>
    simp only [writeCQPKeyValue, hv] <;>
    split_ifs <;>
    first
      | exact ⟨_, (List.append_nil ctx.out).symm⟩
      | exact ⟨_, rfl⟩
      | exact ⟨_, by rw [List.append_assoc]⟩

theorem writeCanonicalQueryParameters_ok_out :
    ∀ (l : List SigV4KeyValuePair) (ctx ctx2 : CanonicalContext),
      writeCanonicalQueryParameters ctx l = .ok ctx2 →
      ∃ s, ctx2.out = ctx.out ++ s := by
  intro l
  induction l with
  | nil =>
    intro ctx ctx2 h
    simp only [writeCanonicalQueryParameters, Except.ok.injEq] at h
    exact ⟨[], by rw [← h, List.append_nil]⟩
  | cons p rest ih =>
    intro ctx ctx2 h
    simp only [writeCanonicalQueryParameters] at h
    rcases writeCQPKeyValue_out ctx p with ⟨s0, hs0⟩
    split_ifs at h
    · rcases ih _ _ h with ⟨s1, hs1⟩
      exact ⟨s0 ++ [38] ++ s1,
        by rw [hs1]; dsimp only; rw [hs0]; simp [List.append_assoc]⟩
    · rcases ih _ _ h with ⟨s1, hs1⟩
      exact ⟨s0 ++ s1,
        by rw [hs1]; dsimp only; rw [hs0]; simp [List.append_assoc]⟩

theorem generateCanonicalQuery_ok_out (q : List Nat)
    (ctx ctx2 : CanonicalContext)
    (h : generateCanonicalQuery q ctx = .ok ctx2) :
    ∃ s, ctx2.out = ctx.out ++ s := by
  simp only [generateCanonicalQuery] at h
  split_ifs at h
  rcases hw : writeCanonicalQueryParameters ctx
      (qsortModel cmpQueryFieldValueLe (setQueryStringFieldsAndValues q))
    with e | c <;> rw [hw] at h
  · exact Except.noConfusion h
  · simp only [Except.ok.injEq] at h
    rcases writeCanonicalQueryParameters_ok_out _ _ _ hw with ⟨s, hs⟩
    refine ⟨s ++ [LINEFEED_CHAR], ?_⟩
    rw [← h]
    dsimp only
    rw [hs, List.append_assoc]

theorem canonicalURIStep_ok_out (p : SigV4Parameters)
    (ctx ctx2 : CanonicalContext) (h : canonicalURIStep p ctx = .ok ctx2) :
    ∃ s, ctx2.out = ctx.out ++ s := by
  simp only [canonicalURIStep] at h
  split_ifs at h <;>
    first
      | exact writeLineToCanonicalRequest_ok_out _ _ _ h
      | exact generateCanonicalURI_ok_out _ _ _ _ h

theorem canonicalQueryStep_ok_out (p : SigV4Parameters)
    (ctx ctx2 : CanonicalContext) (h : canonicalQueryStep p ctx = .ok ctx2) :
    ∃ s, ctx2.out = ctx.out ++ s := by
  simp only [canonicalQueryStep] at h
  split_ifs at h
  · exact writeLineToCanonicalRequest_ok_out _ _ _ h
  · exact generateCanonicalQuery_ok_out _ _ _ h

theorem payloadHashStep_ok_out (p : SigV4Parameters)
    (ctx ctx2 : CanonicalContext) (h : payloadHashStep p ctx = .ok ctx2) :
    ∃ s, ctx2.out = ctx.out ++ s := by
  simp only [payloadHashStep] at h
  rcases hc : completeHashAndHexEncode p.crypto p.http.payload
      ctx.bufRemaining with e | hex <;> rw [hc] at h
  · exact Except.noConfusion h
  · simp only [Except.ok.injEq] at h
    exact ⟨hex, by rw [← h]⟩

theorem generateCanonicalHeaders_ok_chunk (hdrs : List Nat)
    (ctx ctx2 : CanonicalContext)
    (h : generateCanonicalHeaders hdrs ctx = .ok ctx2) :
    ctx2.out = ctx.out ++ (canonicalHeadersBlockOf hdrs ++ [LINEFEED_CHAR] ++
      signedHeadersOf hdrs ++ [LINEFEED_CHAR]) := by
  simp only [generateCanonicalHeaders] at h
  split_ifs at h
  simp only [Except.ok.injEq] at h
  rw [← h]

theorem lexOrd_lt_le_trans (a b c : List Nat) (hab : lexOrd a b = .lt)
    (hbc : lexOrd b c ≠ .gt) : lexOrd a c ≠ .gt := by
  cases hb : lexOrd b c with
  | lt => rw [lexOrd_lt_trans a b c hab hb]; simp
  | eq => rw [← (lexOrd_eq_iff b c).1 hb, hab]; simp
  | gt => exact absurd hb hbc

theorem mem_hdrInsert (w x : List Nat × List Nat) :
    ∀ l : List (List Nat × List Nat), w ∈ hdrInsert x l → w = x ∨ w ∈ l := by
  intro l
  induction l with
  | nil => simp [hdrInsert]
  | cons y ys ih =>
    intro hw
    simp only [hdrInsert] at hw
    split_ifs at hw
    · simp only [List.mem_cons] at hw ⊢
      tauto
    · simp only [List.mem_cons] at hw ⊢
      rcases hw with hw | hw
      · tauto
      · rcases ih hw with hw | hw <;> tauto

theorem pairwise_hdrInsert (x : List Nat × List Nat) :
    ∀ l : List (List Nat × List Nat),
      l.Pairwise (fun a b => lexOrd a.1 b.1 ≠ .gt) →
      (hdrInsert x l).Pairwise (fun a b => lexOrd a.1 b.1 ≠ .gt) := by
  intro l
  induction l with
  | nil =>
    intro _
    simp [hdrInsert]
  | cons y ys ih =>
    intro hl
    rcases List.pairwise_cons.1 hl with ⟨hy, hys⟩
    simp only [hdrInsert]
    split_ifs with hlt
    · refine List.pairwise_cons.2 ⟨?_, hl⟩
      intro w hw
      rcases List.mem_cons.1 hw with hw | hw
      · rw [hw, hlt]
        simp
      · exact lexOrd_lt_le_trans x.1 y.1 w.1 hlt (hy w hw)
    · refine List.pairwise_cons.2 ⟨?_, ih hys⟩
      intro w hw
      rcases mem_hdrInsert w x ys hw with hw | hw
      · rw [hw]
        rw [lexOrd_swap x.1 y.1]
        cases hxy : lexOrd x.1 y.1 with
        | lt => exact absurd hxy hlt
        | eq => simp [Ordering.swap]
        | gt => simp [Ordering.swap]
      · exact hy w hw

theorem pairwise_hdrSort (l : List (List Nat × List Nat)) :
    (hdrSort l).Pairwise (fun a b => lexOrd a.1 b.1 ≠ .gt) := by
  induction l with
  | nil => simp [hdrSort]
  | cons x xs ih => exact pairwise_hdrInsert x (hdrSort xs) ih

/-- Claim C2: when HEADERS_ARE_CANONICAL is clear, the canonical request
that the pipeline (with the commented-out generateCanonicalHeaders call
restored per the specification) hashes contains the canonical headers
block — lowercase names, ':', trimmed values, each line ended by a
linefeed, in sorted order, with the block's final linefeed — followed by
the signed-headers list, the sorted lowercase names joined with ';'; the
sort leaves the header names in nondecreasing dictionary order. -/
theorem claim_C2 (p : SigV4Parameters) (ctxF : CanonicalContext)
    (hflag : p.http.flags.headersCanonical = false)
    (hok : canonicalRequestCtxWithHeaders p = .ok ctxF) :
    (∃ pre post, ctxF.out =
      pre ++ (canonicalHeadersBlockOf p.http.headers ++ [LINEFEED_CHAR] ++
        signedHeadersOf p.http.headers ++ [LINEFEED_CHAR]) ++ post) ∧
    (hdrSort (headerPairsOf p.http.headers)).Pairwise
      (fun a b => lexOrd a.1 b.1 ≠ .gt) := by
  refine ⟨?_, pairwise_hdrSort _⟩
  simp only [canonicalRequestCtxWithHeaders, canonicalRequestPipeline] at hok
  rcases h1 : writeLineToCanonicalRequest p.http.httpMethod
      ⟨[], SIGV4_PROCESSING_BUFFER_LENGTH⟩ with e1 | c1 <;>
    rw [h1] at hok <;> dsimp only at hok
  · exact Except.noConfusion hok
  · rcases h2 : canonicalURIStep p c1 with e2 | c2 <;>
      rw [h2] at hok <;> dsimp only at hok
    · exact Except.noConfusion hok
    · rcases h3 : canonicalQueryStep p c2 with e3 | c3 <;>
        rw [h3] at hok <;> dsimp only at hok
      · exact Except.noConfusion hok
      · rcases h4 : canonicalHeadersStepRestored p c3 with e4 | c4 <;>
          rw [h4] at hok <;> dsimp only at hok
        · exact Except.noConfusion hok
        · simp only [canonicalHeadersStepRestored] at h4
          rw [hflag, if_neg Bool.false_ne_true] at h4
          have hhd := generateCanonicalHeaders_ok_chunk _ _ _ h4
          rcases payloadHashStep_ok_out p c4 ctxF hok with ⟨s, hs⟩
          refine ⟨c3.out, s, ?_⟩
          rw [hs, hhd]

/-- Witness for claim C2 at the demo parameters: the headers flag is
clear, the restored pipeline succeeds with context demoHeadersCtx, its
output contains the canonical headers chunk, and the sorted headers are
in order. -/
theorem claim_C2_witness :
    (demoParams.http.flags.headersCanonical = false ∧
      canonicalRequestCtxWithHeaders demoParams = .ok demoHeadersCtx) ∧
    ((∃ pre post, demoHeadersCtx.out =
      pre ++ (canonicalHeadersBlockOf demoParams.http.headers ++
        [LINEFEED_CHAR] ++ signedHeadersOf demoParams.http.headers ++
        [LINEFEED_CHAR]) ++ post) ∧
    (hdrSort (headerPairsOf demoParams.http.headers)).Pairwise
      (fun a b => lexOrd a.1 b.1 ≠ .gt)) :=
  ⟨⟨rfl, rfl⟩, claim_C2 demoParams demoHeadersCtx rfl rfl⟩
end SigV4
